import Mathlib

/-!
Shallow embedding of cartography's GitHub users sync
(cartography/intel/github/users.py and cartography/models/github/users.py).

The embedding keeps the source's names where Lean allows it:
`get_enterprise_owners`'s pure partition loop becomes `partitionOwnerEdges`,
`_mark_users_as_enterprise_owners` becomes `markUsersAsEnterpriseOwners`,
`load_organization_users` / `load_unaffiliated_owners` become
`loadOrganizationUsers` / `loadUnaffiliatedOwners` over an explicit graph
state modelling the neo4j MERGE/SET semantics, and `sync` becomes `sync`.
-/

/-- A GitHub user node as returned inside a member or owner edge:
url, login, name, isSiteAdmin, email, company.  `name`, `email` and
`company` may be null in the API response, hence `Option`. -/
structure UserNode where
  url : String
  login : String
  name : Option String
  isSiteAdmin : Bool
  email : Option String
  company : Option String
deriving Repr, DecidableEq

/-- One row of the membersWithRole query: hasTwoFactorEnabled (may be null),
the user node, and the member's role ("MEMBER" or "ADMIN"). -/
structure MemberEdge where
  hasTwoFactorEnabled : Option Bool
  node : UserNode
  role : String
deriving Repr, DecidableEq

/-- One row of the enterpriseOwners query: the user node and the owner's
organizationRole ("OWNER", "DIRECT_MEMBER" or "UNAFFILIATED"). -/
structure OwnerEdge where
  node : UserNode
  organizationRole : String
deriving Repr, DecidableEq

/-- The user node after `_mark_users_as_enterprise_owners` has added the
derived isEnterpriseOwner key to the node dict. -/
structure DecoratedNode where
  base : UserNode
  isEnterpriseOwner : Bool
deriving Repr, DecidableEq

/-- A member edge after decoration: the deep copy of the member edge whose
node dict carries the extra isEnterpriseOwner key. -/
structure DecoratedMember where
  hasTwoFactorEnabled : Option Bool
  node : DecoratedNode
  role : String
deriving Repr, DecidableEq

/-- The organization descriptor returned next to each paginated result set:
the url (used as id) and the login. -/
structure OrgData where
  url : String
  login : String
deriving Repr, DecidableEq

/-- The partition loop of `get_enterprise_owners` (users.py lines 116-123):
owners with organizationRole "UNAFFILIATED" are appended to the
unaffiliated list, all others to the affiliated list, in input order.
Returns (affiliated_owners, unaffiliated_owners). -/
def partitionOwnerEdges : List OwnerEdge → List OwnerEdge × List OwnerEdge
  | [] => ([], [])
  | o :: rest =>
    let p := partitionOwnerEdges rest
    if o.organizationRole = "UNAFFILIATED" then (p.1, o :: p.2) else (o :: p.1, p.2)

/-- The urls of a list of owner edges, as collected by the set comprehension
in `_mark_users_as_enterprise_owners` (users.py line 149). -/
def ownerUrlList (owners : List OwnerEdge) : List String :=
  owners.map (fun e => e.node.url)

/-- `_mark_users_as_enterprise_owners` (users.py lines 126-154).  First the
guard: if the two organization urls differ, or the two logins differ, a
ValueError naming both values is raised (modelled as `Except.error`).
Otherwise each user edge is deep-copied and its node gets the derived
isEnterpriseOwner key, true iff the user's url is among the affiliated
owners' urls. -/
def markUsersAsEnterpriseOwners (userData : List MemberEdge) (userOrgData : OrgData)
    (affiliatedOwnerData : List OwnerEdge) (ownerOrgData : OrgData) :
    Except String (List DecoratedMember) :=
  if userOrgData.url ≠ ownerOrgData.url then
    .error ("Organization URLs do not match: " ++ userOrgData.url ++ " != " ++ ownerOrgData.url)
  else if userOrgData.login ≠ ownerOrgData.login then
    .error ("Organization logins do not match: " ++ userOrgData.login ++ " != " ++ ownerOrgData.login)
  else
    .ok (userData.map (fun u =>
      { hasTwoFactorEnabled := u.hasTwoFactorEnabled
        node := { base := u.node
                  isEnterpriseOwner := (ownerUrlList affiliatedOwnerData).contains u.node.url }
        role := u.role }))

/-- The pure reconciliation step of `sync` (users.py lines 251-252): partition
the owner edges, then decorate the member edges against the affiliated part.
Returns the decorated members together with the unaffiliated owners. -/
def reconcile (memberEdges : List MemberEdge) (userOrgData : OrgData)
    (ownerEdges : List OwnerEdge) (ownerOrgData : OrgData) :
    Except String (List DecoratedMember × List OwnerEdge) :=
  let p := partitionOwnerEdges ownerEdges
  match markUsersAsEnterpriseOwners memberEdges userOrgData p.1 ownerOrgData with
  | .error e => .error e
  | .ok decorated => .ok (decorated, p.2)

/-- The properties a GitHubUser node can carry in the graph.  A value of
`none` in `fullname`, `email`, `company`, `role` or `has_2fa_enabled`
means the property is absent on the node (neo4j removes a property when it
is SET to null, and never-set properties are absent). -/
structure UserProps where
  firstseen : Nat
  lastupdated : Int
  fullname : Option String
  username : String
  has_2fa_enabled : Option Bool
  role : Option String
  is_site_admin : Bool
  is_enterprise_owner : Bool
  email : Option String
  company : Option String
deriving Repr, DecidableEq

/-- The properties of a GitHubOrganization node. -/
structure OrgProps where
  firstseen : Nat
  username : String
  lastupdated : Int
deriving Repr, DecidableEq

/-- The properties of a MEMBER_OF or UNAFFILIATED relationship. -/
structure RelProps where
  firstseen : Nat
  lastupdated : Int
deriving Repr, DecidableEq

/-- The slice of the neo4j graph this module touches: GitHubUser nodes keyed
by id (the user url), GitHubOrganization nodes keyed by id (the org url),
and the MEMBER_OF and UNAFFILIATED relationships keyed by
(user id, org id). -/
structure GraphState where
  users : String → Option UserProps
  orgs : String → Option OrgProps
  memberOf : String → String → Option RelProps
  unaffiliated : String → String → Option RelProps

/-- The empty graph. -/
def GraphState.empty : GraphState :=
  { users := fun _ => none
    orgs := fun _ => none
    memberOf := fun _ _ => none
    unaffiliated := fun _ _ => none }

/-- MERGE (org:GitHubOrganization) with ON CREATE SET org.firstseen and the
unconditional SET of username and lastupdated, shared by both load queries. -/
def mergeOrg (g : GraphState) (orgUrl orgLogin : String) (now : Nat) (tag : Int) :
    GraphState :=
  let fs : Nat := match g.orgs orgUrl with
    | some p => p.firstseen
    | none => now
  { g with orgs := fun k =>
      if k = orgUrl then some { firstseen := fs, username := orgLogin, lastupdated := tag }
      else g.orgs k }

/-- The per-user MERGE of `load_organization_users` (users.py lines 171-181):
create the GitHubUser if absent (stamping firstseen once), then
unconditionally SET the full affiliated property set. -/
def upsertMemberUser (g : GraphState) (u : DecoratedMember) (now : Nat) (tag : Int) :
    GraphState :=
  let uid := u.node.base.url
  let fs : Nat := match g.users uid with
    | some p => p.firstseen
    | none => now
  let newProps : UserProps :=
    { firstseen := fs
      lastupdated := tag
      fullname := u.node.base.name
      username := u.node.base.login
      has_2fa_enabled := u.hasTwoFactorEnabled
      role := some u.role
      is_site_admin := u.node.base.isSiteAdmin
      is_enterprise_owner := u.node.isEnterpriseOwner
      email := u.node.base.email
      company := u.node.base.company }
  { g with users := fun k => if k = uid then some newProps else g.users k }

/-- The per-owner MERGE of `load_unaffiliated_owners` (users.py lines
219-227): create the GitHubUser if absent (stamping firstseen once), then
SET only the reduced property set; `role` and `has_2fa_enabled` are not
mentioned in the query, so they keep whatever value the node had
(absent on a fresh node), and is_enterprise_owner is SET to TRUE. -/
def upsertUnaffiliatedUser (g : GraphState) (o : OwnerEdge) (now : Nat) (tag : Int) :
    GraphState :=
  let uid := o.node.url
  let fs : Nat := match g.users uid with
    | some p => p.firstseen
    | none => now
  let prevRole : Option String := match g.users uid with
    | some p => p.role
    | none => none
  let prev2fa : Option Bool := match g.users uid with
    | some p => p.has_2fa_enabled
    | none => none
  let newProps : UserProps :=
    { firstseen := fs
      lastupdated := tag
      fullname := o.node.name
      username := o.node.login
      has_2fa_enabled := prev2fa
      role := prevRole
      is_site_admin := o.node.isSiteAdmin
      is_enterprise_owner := true
      email := o.node.email
      company := o.node.company }
  { g with users := fun k => if k = uid then some newProps else g.users k }

/-- MERGE (u)-[r:MEMBER_OF]->(org) with ON CREATE SET r.firstseen and the
unconditional SET of r.lastupdated. -/
def mergeMemberOfRel (g : GraphState) (uid orgUrl : String) (now : Nat) (tag : Int) :
    GraphState :=
  let fs : Nat := match g.memberOf uid orgUrl with
    | some p => p.firstseen
    | none => now
  { g with memberOf := fun a b =>
      if a = uid ∧ b = orgUrl then some { firstseen := fs, lastupdated := tag }
      else g.memberOf a b }

/-- MERGE (u)-[r:UNAFFILIATED]->(org) with ON CREATE SET r.firstseen and the
unconditional SET of r.lastupdated. -/
def mergeUnaffiliatedRel (g : GraphState) (uid orgUrl : String) (now : Nat) (tag : Int) :
    GraphState :=
  let fs : Nat := match g.unaffiliated uid orgUrl with
    | some p => p.firstseen
    | none => now
  { g with unaffiliated := fun a b =>
      if a = uid ∧ b = orgUrl then some { firstseen := fs, lastupdated := tag }
      else g.unaffiliated a b }

/-- One iteration of the UNWIND in `load_organization_users`: merge the
GitHubUser node with the full affiliated property set, then merge its
MEMBER_OF relationship to the org. -/
def memberStep (orgUrl : String) (now : Nat) (tag : Int)
    (acc : GraphState) (u : DecoratedMember) : GraphState :=
  mergeMemberOfRel (upsertMemberUser acc u now tag) u.node.base.url orgUrl now tag

/-- One iteration of the UNWIND in `load_unaffiliated_owners`: merge the
GitHubUser node with the reduced property set, then merge its UNAFFILIATED
relationship to the org. -/
def unaffStep (orgUrl : String) (now : Nat) (tag : Int)
    (acc : GraphState) (o : OwnerEdge) : GraphState :=
  mergeUnaffiliatedRel (upsertUnaffiliatedUser acc o now tag) o.node.url orgUrl now tag

/-- `load_organization_users` (users.py lines 157-193): merge the org node,
then UNWIND the decorated user data, merging each GitHubUser node with the
full affiliated property set and a MEMBER_OF relationship to the org. -/
def loadOrganizationUsers (g : GraphState) (userData : List DecoratedMember)
    (orgData : OrgData) (now : Nat) (tag : Int) : GraphState :=
  userData.foldl (memberStep orgData.url now tag)
    (mergeOrg g orgData.url orgData.login now tag)

/-- `load_unaffiliated_owners` (users.py lines 195-239): merge the org node,
then UNWIND the unaffiliated owner data, merging each GitHubUser node with
the reduced property set and an UNAFFILIATED relationship to the org. -/
def loadUnaffiliatedOwners (g : GraphState) (ownerData : List OwnerEdge)
    (orgData : OrgData) (now : Nat) (tag : Int) : GraphState :=
  ownerData.foldl (unaffStep orgData.url now tag)
    (mergeOrg g orgData.url orgData.login now tag)

/-- The steps of one sync run, in the order `sync` (users.py lines 241-263)
performs them.  The two fetches are inputs to the model (their results are
parameters of `sync`), validation and decoration happen inside
`_mark_users_as_enterprise_owners`, then the two write phases, the cleanup
job, and the metadata merge. -/
inductive SyncStep
  | fetchUsers
  | fetchOwners
  | validateOrgs
  | reconcileUsers
  | writeAffiliated
  | writeUnaffiliated
  | cleanupJob
  | recordMetadata
deriving Repr, DecidableEq

/-- Whether the external neo4j session and cleanup collaborator succeed at
each write step of a run.  A false flag models the corresponding call
raising, which in Python propagates and aborts the rest of `sync`. -/
structure SessionBehavior where
  phase1Ok : Bool
  phase2Ok : Bool
  cleanupOk : Bool
deriving Repr, DecidableEq

/-- The arguments of the `merge_module_sync_metadata` call at the end of
`sync` (users.py lines 256-263). -/
structure SyncMetadata where
  groupType : String
  groupId : String
  syncedType : String
  updateTag : Int
deriving Repr, DecidableEq

/-- The observable outcome of one `sync` run: the error that aborted it (if
any), the final graph, the steps completed in order, and the completion
metadata if it was recorded. -/
structure SyncOutcome where
  error : Option String
  graph : GraphState
  steps : List SyncStep
  metadata : Option SyncMetadata

/-- `sync` (users.py lines 241-263) over already-fetched inputs: partition
the owner edges (done inside `get_enterprise_owners`), validate the two org
descriptors and decorate the members (`_mark_users_as_enterprise_owners`; a
ValueError there propagates and aborts the run), then phase 1
(`load_organization_users`), phase 2 (`load_unaffiliated_owners`), the
cleanup job, and finally `merge_module_sync_metadata`.  An exception at any
step aborts all later steps. -/
def sync (g : GraphState) (userData : List MemberEdge) (userOrgData : OrgData)
    (ownerEdges : List OwnerEdge) (ownerOrgData : OrgData)
    (updateTag : Int) (now : Nat) (beh : SessionBehavior) : SyncOutcome :=
  let p := partitionOwnerEdges ownerEdges
  match markUsersAsEnterpriseOwners userData userOrgData p.1 ownerOrgData with
  | .error e =>
    { error := some e, graph := g
      steps := [.fetchUsers, .fetchOwners], metadata := none }
  | .ok processed =>
    if beh.phase1Ok = false then
      { error := some "load_organization_users failed", graph := g
        steps := [.fetchUsers, .fetchOwners, .validateOrgs, .reconcileUsers]
        metadata := none }
    else
      let g1 := loadOrganizationUsers g processed userOrgData now updateTag
      if beh.phase2Ok = false then
        { error := some "load_unaffiliated_owners failed", graph := g1
          steps := [.fetchUsers, .fetchOwners, .validateOrgs, .reconcileUsers,
                    .writeAffiliated]
          metadata := none }
      else
        let g2 := loadUnaffiliatedOwners g1 p.2 ownerOrgData now updateTag
        if beh.cleanupOk = false then
          { error := some "run_cleanup_job failed", graph := g2
            steps := [.fetchUsers, .fetchOwners, .validateOrgs, .reconcileUsers,
                      .writeAffiliated, .writeUnaffiliated]
            metadata := none }
        else
          { error := none, graph := g2
            steps := [.fetchUsers, .fetchOwners, .validateOrgs, .reconcileUsers,
                      .writeAffiliated, .writeUnaffiliated, .cleanupJob,
                      .recordMetadata]
            metadata := some { groupType := "GitHubOrganization"
                               groupId := userOrgData.url
                               syncedType := "GitHubOrganization"
                               updateTag := updateTag } }

/-- Test fixture from tests/data/github/users.py: Homer, a MEMBER. -/
def homerEdge : MemberEdge :=
  { hasTwoFactorEnabled := none
    node := { url := "https://example.com/hjsimpson", login := "hjsimpson"
              name := some "Homer Simpson", isSiteAdmin := false
              email := some "hjsimpson@example.com"
              company := some "Springfield Nuclear Power Plant" }
    role := "MEMBER" }

/-- Test fixture from tests/data/github/users.py: Marge, an ADMIN. -/
def margeEdge : MemberEdge :=
  { hasTwoFactorEnabled := some true
    node := { url := "https://example.com/mbsimpson", login := "mbsimpson"
              name := some "Marge Simpson", isSiteAdmin := false
              email := some "mbsimpson@example.com"
              company := some "Simpson Residence" }
    role := "ADMIN" }

/-- Test fixture from tests/data/github/users.py: Kyle, an UNAFFILIATED
 enterprise owner. -/
def kyleOwner : OwnerEdge :=
  { node := { url := "https://example.com/kbroflovski", login := "kbroflovski"
              name := some "Kyle Broflovski", isSiteAdmin := false
              email := some "kbroflovski@example.com"
              company := some "South Park Elementary" }
    organizationRole := "UNAFFILIATED" }

/-- Test fixture from tests/data/github/users.py: Bart, a DIRECT_MEMBER
 enterprise owner. -/
def bartOwner : OwnerEdge :=
  { node := { url := "https://example.com/bjsimpson", login := "bjsimpson"
              name := some "Bartholomew Simpson", isSiteAdmin := false
              email := some "bjsimpson@example.com"
              company := some "Simpson Residence" }
    organizationRole := "DIRECT_MEMBER" }

/-- Test fixture from tests/data/github/users.py: Lisa, an OWNER enterprise
 owner. -/
def lisaOwner : OwnerEdge :=
  { node := { url := "https://example.com/lmsimpson", login := "lmsimpson"
              name := some "Lisa Simpson", isSiteAdmin := false
              email := some "lmsimpson@example.com"
              company := some "Simpson Residence" }
    organizationRole := "OWNER" }

/-- Test fixture from tests/data/github/users.py: the organization. -/
def myOrg : OrgData :=
  { url := "https://example.com/my_org", login := "my_org" }

/-- The urls of a decorated-member list. -/
def decoratedUrlList (d : List DecoratedMember) : List String :=
  d.map (fun m => m.node.base.url)

/-- Projection of a reconcile result to the urls of the decorated members. -/
def reconcileDecoratedUrls (r : Except String (List DecoratedMember × List OwnerEdge)) :
    Option (List String) :=
  r.toOption.map (fun x => decoratedUrlList x.1)

/-- Projection of a reconcile result to the urls of the unaffiliated owners. -/
def reconcileUnaffUrls (r : Except String (List DecoratedMember × List OwnerEdge)) :
    Option (List String) :=
  r.toOption.map (fun x => ownerUrlList x.2)

/-- A property preserved by every step of a left fold holds of the result. -/
theorem foldlPreserve {α β : Type} {f : α → β → α} {P : α → Prop}
    (h : ∀ a b, P a → P (f a b)) :
    ∀ (l : List β) (a : α), P a → P (l.foldl f a)
  | [], _, ha => ha
  | b :: l, a, ha => foldlPreserve h l (f a b) (h a b ha)

/-- The partition loop computes the two filters of the owner list. -/
theorem partitionOwnerEdges_eq_filter (O : List OwnerEdge) :
    partitionOwnerEdges O =
      (O.filter (fun o => !(o.organizationRole == "UNAFFILIATED")),
       O.filter (fun o => o.organizationRole == "UNAFFILIATED")) := by
  induction O with
  | nil => rfl
  | cons o rest ih =>
    simp only [partitionOwnerEdges, ih, List.filter_cons]
    by_cases h : o.organizationRole = "UNAFFILIATED" <;> simp [h]

/-- A second organization descriptor, for exercising the validation guard. -/
def otherOrg : OrgData :=
  { url := "https://example.com/other_org", login := "other_org" }

/-- C4: the owner result set is partitioned by organizationRole: every owner
edge with organizationRole "UNAFFILIATED" goes into the unaffiliated list
and every other owner edge into the affiliated list, each list a filter of
the input (records unchanged), and the two lists together contain exactly
the input owner edges. -/
theorem get_enterprise_owners_partition (O : List OwnerEdge) :
    (∀ o ∈ O, (o.organizationRole = "UNAFFILIATED" → o ∈ (partitionOwnerEdges O).2) ∧
              (o.organizationRole ≠ "UNAFFILIATED" → o ∈ (partitionOwnerEdges O).1)) ∧
    (partitionOwnerEdges O).1 =
      O.filter (fun o => !(o.organizationRole == "UNAFFILIATED")) ∧
    (partitionOwnerEdges O).2 =
      O.filter (fun o => o.organizationRole == "UNAFFILIATED") ∧
    ((partitionOwnerEdges O).1 ++ (partitionOwnerEdges O).2).Perm O := by
  have hp := partitionOwnerEdges_eq_filter O
  refine ⟨?_, ?_, ?_, ?_⟩
  · intro o ho
    constructor
    · intro hrole
      rw [hp]
      simp [List.mem_filter, ho, hrole]
    · intro hrole
      rw [hp]
      simp [List.mem_filter, ho, hrole]
  · rw [hp]
  · rw [hp]
  · rw [hp]
    have h := List.filter_append_perm
      (fun o : OwnerEdge => !(o.organizationRole == "UNAFFILIATED")) O
    simpa [Bool.not_not] using h

/-- Witness for C4 at the repository's test fixture. -/
theorem get_enterprise_owners_partition_witness :
    (kyleOwner ∈ [kyleOwner, bartOwner, lisaOwner] ∧
      kyleOwner.organizationRole = "UNAFFILIATED" ∧
      lisaOwner ∈ [kyleOwner, bartOwner, lisaOwner] ∧
      lisaOwner.organizationRole ≠ "UNAFFILIATED") ∧
    kyleOwner ∈ (partitionOwnerEdges [kyleOwner, bartOwner, lisaOwner]).2 ∧
    lisaOwner ∈ (partitionOwnerEdges [kyleOwner, bartOwner, lisaOwner]).1 :=
  ⟨⟨by decide, by decide, by decide, by decide⟩,
   ((get_enterprise_owners_partition [kyleOwner, bartOwner, lisaOwner]).1 kyleOwner
      (by decide)).1 (by decide),
   ((get_enterprise_owners_partition [kyleOwner, bartOwner, lisaOwner]).1 lisaOwner
      (by decide)).2 (by decide)⟩

/-- C3: organization-identity validation compares exactly the url (id) and
login of the two descriptors; it fails with an error naming both differing
values iff the urls differ or the logins differ; on failure the sync run
performs no reconciliation and no graph writes; when both fields are equal
it succeeds and the run proceeds. -/
theorem org_identity_validation (uo oo : OrgData) (M : List MemberEdge)
    (aff : List OwnerEdge) (g : GraphState) (O : List OwnerEdge) (tag : Int)
    (now : Nat) (beh : SessionBehavior) :
    ((∃ e, markUsersAsEnterpriseOwners M uo aff oo = .error e) ↔
      (uo.url ≠ oo.url ∨ uo.login ≠ oo.login)) ∧
    (uo.url ≠ oo.url →
      markUsersAsEnterpriseOwners M uo aff oo =
        .error ("Organization URLs do not match: " ++ uo.url ++ " != " ++ oo.url)) ∧
    (uo.url = oo.url → uo.login ≠ oo.login →
      markUsersAsEnterpriseOwners M uo aff oo =
        .error ("Organization logins do not match: " ++ uo.login ++ " != " ++ oo.login)) ∧
    (uo.url = oo.url → uo.login = oo.login →
      ∃ res, markUsersAsEnterpriseOwners M uo aff oo = .ok res) ∧
    ((uo.url ≠ oo.url ∨ uo.login ≠ oo.login) →
      (sync g M uo O oo tag now beh).graph = g ∧
      (sync g M uo O oo tag now beh).steps = [.fetchUsers, .fetchOwners] ∧
      (sync g M uo O oo tag now beh).metadata = none ∧
      (sync g M uo O oo tag now beh).error ≠ none) ∧
    (uo.url = oo.url → uo.login = oo.login →
      (sync g M uo O oo tag now ⟨true, true, true⟩).error = none) := by
  by_cases h1 : uo.url = oo.url
  · by_cases h2 : uo.login = oo.login
    · refine ⟨?_, ?_, ?_, ?_, ?_, ?_⟩
      · simp [markUsersAsEnterpriseOwners, h1, h2]
      · intro h
        exact absurd h1 h
      · intro _ h
        exact absurd h2 h
      · intro _ _
        cases hm : markUsersAsEnterpriseOwners M uo aff oo with
        | ok res => exact ⟨res, rfl⟩
        | error e => simp [markUsersAsEnterpriseOwners, h1, h2] at hm
      · intro h
        rcases h with h | h
        · exact absurd h1 h
        · exact absurd h2 h
      · intro _ _
        simp [sync, markUsersAsEnterpriseOwners, h1, h2]
    · refine ⟨?_, ?_, ?_, ?_, ?_, ?_⟩
      · simp [markUsersAsEnterpriseOwners, h1, h2]
      · intro h
        exact absurd h1 h
      · intro _ _
        simp [markUsersAsEnterpriseOwners, h1, h2]
      · intro _ h
        exact absurd h h2
      · intro _
        refine ⟨?_, ?_, ?_, ?_⟩ <;>
          simp [sync, markUsersAsEnterpriseOwners, h1, h2]
      · intro _ h
        exact absurd h h2
  · refine ⟨?_, ?_, ?_, ?_, ?_, ?_⟩
    · simp [markUsersAsEnterpriseOwners, h1]
    · intro _
      simp [markUsersAsEnterpriseOwners, h1]
    · intro h _
      exact absurd h h1
    · intro h _
      exact absurd h h1
    · intro _
      refine ⟨?_, ?_, ?_, ?_⟩ <;>
        simp [sync, markUsersAsEnterpriseOwners, h1]
    · intro h _
      exact absurd h h1

/-- Witness for C3: mismatched org urls yield the error naming both urls and
a sync run that records nothing; matching descriptors let the run proceed. -/
theorem org_identity_validation_witness :
    (myOrg.url ≠ otherOrg.url ∧
      markUsersAsEnterpriseOwners [homerEdge] myOrg [] otherOrg =
        .error ("Organization URLs do not match: " ++ myOrg.url ++ " != " ++ otherOrg.url) ∧
      (sync GraphState.empty [homerEdge] myOrg [] otherOrg 100 5 ⟨true, true, true⟩).metadata =
        none) ∧
    (sync GraphState.empty [homerEdge] myOrg [] myOrg 100 5 ⟨true, true, true⟩).error = none :=
  ⟨⟨by decide,
    (org_identity_validation myOrg otherOrg [homerEdge] [] GraphState.empty [] 100 5
        ⟨true, true, true⟩).2.1 (by decide),
    ((org_identity_validation myOrg otherOrg [homerEdge] [] GraphState.empty [] 100 5
        ⟨true, true, true⟩).2.2.2.2.1 (Or.inl (by decide))).2.2.1⟩,
   (org_identity_validation myOrg myOrg [homerEdge] [] GraphState.empty [] 100 5
      ⟨true, true, true⟩).2.2.2.2.2 rfl rfl⟩

/-- C2: with matching org descriptors, reconciliation returns a decorated
member list of the same length as the member list, each output record equal
to the corresponding input record in every field, plus a new derived
isEnterpriseOwner flag that is true iff that member's url is among the urls
of the affiliated owners. -/
theorem reconcile_decorates_members (M : List MemberEdge)
    (userOrgData ownerOrgData : OrgData) (O : List OwnerEdge)
    (hu : userOrgData.url = ownerOrgData.url)
    (hl : userOrgData.login = ownerOrgData.login) :
    ∃ d, reconcile M userOrgData O ownerOrgData = .ok (d, (partitionOwnerEdges O).2) ∧
      d.length = M.length ∧
      ∀ i (hi : i < M.length) (hi2 : i < d.length),
        (d.get ⟨i, hi2⟩).hasTwoFactorEnabled = (M.get ⟨i, hi⟩).hasTwoFactorEnabled ∧
        (d.get ⟨i, hi2⟩).role = (M.get ⟨i, hi⟩).role ∧
        (d.get ⟨i, hi2⟩).node.base = (M.get ⟨i, hi⟩).node ∧
        ((d.get ⟨i, hi2⟩).node.isEnterpriseOwner = true ↔
          (M.get ⟨i, hi⟩).node.url ∈ ownerUrlList (partitionOwnerEdges O).1) := by
  refine ⟨M.map (fun u =>
      { hasTwoFactorEnabled := u.hasTwoFactorEnabled
        node := { base := u.node
                  isEnterpriseOwner :=
                    (ownerUrlList (partitionOwnerEdges O).1).contains u.node.url }
        role := u.role }), ?_, ?_, ?_⟩
  · simp [reconcile, markUsersAsEnterpriseOwners, hu, hl]
  · simp
  · intro i hi hi2
    simp [List.get_eq_getElem, List.getElem_map]

/-- Witness for C2 at the repository's test fixture (two members, three
owners of which one is unaffiliated). -/
theorem reconcile_decorates_members_witness :
    (myOrg.url = myOrg.url ∧ myOrg.login = myOrg.login) ∧
    (∃ d, reconcile [homerEdge, margeEdge] myOrg [kyleOwner, bartOwner, lisaOwner] myOrg =
        .ok (d, (partitionOwnerEdges [kyleOwner, bartOwner, lisaOwner]).2) ∧
      d.length = [homerEdge, margeEdge].length ∧
      ∀ i (hi : i < [homerEdge, margeEdge].length) (hi2 : i < d.length),
        (d.get ⟨i, hi2⟩).hasTwoFactorEnabled =
          ([homerEdge, margeEdge].get ⟨i, hi⟩).hasTwoFactorEnabled ∧
        (d.get ⟨i, hi2⟩).role = ([homerEdge, margeEdge].get ⟨i, hi⟩).role ∧
        (d.get ⟨i, hi2⟩).node.base = ([homerEdge, margeEdge].get ⟨i, hi⟩).node ∧
        ((d.get ⟨i, hi2⟩).node.isEnterpriseOwner = true ↔
          ([homerEdge, margeEdge].get ⟨i, hi⟩).node.url ∈
            ownerUrlList (partitionOwnerEdges [kyleOwner, bartOwner, lisaOwner]).1)) :=
  ⟨⟨rfl, rfl⟩,
   reconcile_decorates_members [homerEdge, margeEdge] myOrg myOrg
     [kyleOwner, bartOwner, lisaOwner] rfl rfl⟩

/-- An owner edge carrying Homer's url with organizationRole "UNAFFILIATED":
nothing in the code prevents the owner query from listing a url that the
member query also listed. -/
def homerUnaffOwner : OwnerEdge :=
  { node := { url := "https://example.com/hjsimpson", login := "hjsimpson"
              name := some "Homer Simpson", isSiteAdmin := false
              email := some "hjsimpson@example.com"
              company := some "Springfield Nuclear Power Plant" }
    organizationRole := "UNAFFILIATED" }

/-- Counterexample to C5: when the inputs overlap (a member url also occurs
on an owner edge with organizationRole "UNAFFILIATED"), that url appears in
both the decorated-members output and the unaffiliated-owners output;
reconciliation does not enforce disjointness. -/
theorem reconcile_disjoint_counterexample :
    reconcileDecoratedUrls (reconcile [homerEdge] myOrg [homerUnaffOwner] myOrg) =
      some ["https://example.com/hjsimpson"] ∧
    reconcileUnaffUrls (reconcile [homerEdge] myOrg [homerUnaffOwner] myOrg) =
      some ["https://example.com/hjsimpson"] := by
  exact ⟨rfl, rfl⟩

/-- C5 amended: the reconciliation outputs are disjoint provided no member
url occurs on an owner edge with organizationRole "UNAFFILIATED" (the
guarantee the GitHub API gives); the code itself does not enforce it. -/
theorem reconcile_disjoint_amended (M : List MemberEdge) (uo oo : OrgData)
    (O : List OwnerEdge) (hu : uo.url = oo.url) (hl : uo.login = oo.login)
    (hdisj : ∀ m ∈ M, ∀ o ∈ O, o.organizationRole = "UNAFFILIATED" →
      m.node.url ≠ o.node.url) :
    ∃ d u, reconcile M uo O oo = .ok (d, u) ∧
      ∀ url, url ∈ decoratedUrlList d → url ∉ ownerUrlList u := by
  refine ⟨M.map (fun m =>
      { hasTwoFactorEnabled := m.hasTwoFactorEnabled
        node := { base := m.node
                  isEnterpriseOwner :=
                    (ownerUrlList (partitionOwnerEdges O).1).contains m.node.url }
        role := m.role }), (partitionOwnerEdges O).2, ?_, ?_⟩
  · simp [reconcile, markUsersAsEnterpriseOwners, hu, hl]
  · intro url hd hun
    simp only [decoratedUrlList, List.mem_map] at hd
    obtain ⟨dm, hdm, hurl⟩ := hd
    obtain ⟨m, hm, hmap⟩ := hdm
    simp only [ownerUrlList, List.mem_map] at hun
    obtain ⟨o, ho, hourl⟩ := hun
    have ho2 : o ∈ O.filter (fun o => o.organizationRole == "UNAFFILIATED") := by
      rw [partitionOwnerEdges_eq_filter O] at ho
      exact ho
    have hoO : o ∈ O := (List.mem_filter.mp ho2).1
    have horole : o.organizationRole = "UNAFFILIATED" := by
      have := (List.mem_filter.mp ho2).2
      simpa using this
    apply hdisj m hm o hoO horole
    rw [← hmap] at hurl
    rw [hurl, hourl]

/-- Witness for the amended C5 at the repository's test fixture, where the
member urls and the unaffiliated owner url are indeed distinct. -/
theorem reconcile_disjoint_amended_witness :
    (∀ m ∈ [homerEdge, margeEdge], ∀ o ∈ [kyleOwner, bartOwner, lisaOwner],
      o.organizationRole = "UNAFFILIATED" → m.node.url ≠ o.node.url) ∧
    (∃ d u, reconcile [homerEdge, margeEdge] myOrg [kyleOwner, bartOwner, lisaOwner] myOrg =
        .ok (d, u) ∧
      ∀ url, url ∈ decoratedUrlList d → url ∉ ownerUrlList u) :=
  ⟨by decide,
   reconcile_disjoint_amended [homerEdge, margeEdge] myOrg myOrg
     [kyleOwner, bartOwner, lisaOwner] rfl rfl (by decide)⟩

/-- Permuting a string list does not change the result of `contains`. -/
theorem containsEqOfPerm {l1 l2 : List String} (h : l1.Perm l2) (s : String) :
    l1.contains s = l2.contains s := by
  rw [Bool.eq_iff_iff]
  constructor
  · intro h1
    have hs : s ∈ l1 := by simpa using h1
    simpa using h.mem_iff.mp hs
  · intro h2
    have hs : s ∈ l2 := by simpa using h2
    simpa using h.mem_iff.mpr hs

/-- Counterexample to C6: reconciliation returns lists, and permuting the
member list permutes the decorated-members list with it, so the results of
the permuted run are not equal to the results of the original run. -/
theorem reconcile_order_counterexample :
    reconcileDecoratedUrls (reconcile [homerEdge, margeEdge] myOrg [] myOrg) ≠
      reconcileDecoratedUrls (reconcile [margeEdge, homerEdge] myOrg [] myOrg) := by
  decide

/-- C6 amended: reconciliation is order-independent up to reordering of the
outputs: permuting the member list and the owner list yields a permutation
of the decorated-members list and a permutation of the unaffiliated-owners
list, and the affiliated-owner membership test (hence each member's derived
flag) is unchanged. -/
theorem reconcile_order_amended (M Mp : List MemberEdge) (uo oo : OrgData)
    (O Op : List OwnerEdge) (hm : Mp.Perm M) (ho : Op.Perm O)
    (hu : uo.url = oo.url) (hl : uo.login = oo.login) :
    ∃ d u dp up, reconcile M uo O oo = .ok (d, u) ∧
      reconcile Mp uo Op oo = .ok (dp, up) ∧
      dp.Perm d ∧ up.Perm u ∧
      ∀ s : String, (ownerUrlList (partitionOwnerEdges Op).1).contains s =
        (ownerUrlList (partitionOwnerEdges O).1).contains s := by
  have haff : (partitionOwnerEdges Op).1.Perm (partitionOwnerEdges O).1 := by
    rw [partitionOwnerEdges_eq_filter O, partitionOwnerEdges_eq_filter Op]
    exact ho.filter _
  have hunaff : (partitionOwnerEdges Op).2.Perm (partitionOwnerEdges O).2 := by
    rw [partitionOwnerEdges_eq_filter O, partitionOwnerEdges_eq_filter Op]
    exact ho.filter _
  have hurls : (ownerUrlList (partitionOwnerEdges Op).1).Perm
      (ownerUrlList (partitionOwnerEdges O).1) := haff.map _
  have hcont := fun s => containsEqOfPerm hurls s
  refine ⟨M.map (fun m =>
      { hasTwoFactorEnabled := m.hasTwoFactorEnabled
        node := { base := m.node
                  isEnterpriseOwner :=
                    (ownerUrlList (partitionOwnerEdges O).1).contains m.node.url }
        role := m.role }),
    (partitionOwnerEdges O).2,
    Mp.map (fun m =>
      { hasTwoFactorEnabled := m.hasTwoFactorEnabled
        node := { base := m.node
                  isEnterpriseOwner :=
                    (ownerUrlList (partitionOwnerEdges Op).1).contains m.node.url }
        role := m.role }),
    (partitionOwnerEdges Op).2, ?_, ?_, ?_, hunaff, hcont⟩
  · simp [reconcile, markUsersAsEnterpriseOwners, hu, hl]
  · simp [reconcile, markUsersAsEnterpriseOwners, hu, hl]
  · have hfun : (fun m : MemberEdge =>
        ({ hasTwoFactorEnabled := m.hasTwoFactorEnabled
           node := { base := m.node
                     isEnterpriseOwner :=
                       (ownerUrlList (partitionOwnerEdges Op).1).contains m.node.url }
           role := m.role } : DecoratedMember)) =
        (fun m : MemberEdge =>
        ({ hasTwoFactorEnabled := m.hasTwoFactorEnabled
           node := { base := m.node
                     isEnterpriseOwner :=
                       (ownerUrlList (partitionOwnerEdges O).1).contains m.node.url }
           role := m.role } : DecoratedMember)) := by
      funext m
      rw [hcont m.node.url]
    rw [hfun]
    exact hm.map _

/-- Witness for the amended C6: a transposed member list and a rotated owner
list give permuted outputs with the same membership test. -/
theorem reconcile_order_amended_witness :
    ([margeEdge, homerEdge].Perm [homerEdge, margeEdge] ∧
      [lisaOwner, kyleOwner, bartOwner].Perm [kyleOwner, bartOwner, lisaOwner]) ∧
    (∃ d u dp up,
      reconcile [homerEdge, margeEdge] myOrg [kyleOwner, bartOwner, lisaOwner] myOrg =
        .ok (d, u) ∧
      reconcile [margeEdge, homerEdge] myOrg [lisaOwner, kyleOwner, bartOwner] myOrg =
        .ok (dp, up) ∧
      dp.Perm d ∧ up.Perm u ∧
      ∀ s : String,
        (ownerUrlList (partitionOwnerEdges [lisaOwner, kyleOwner, bartOwner]).1).contains s =
        (ownerUrlList (partitionOwnerEdges [kyleOwner, bartOwner, lisaOwner]).1).contains s) :=
  ⟨⟨by decide, by decide⟩,
   reconcile_order_amended [homerEdge, margeEdge] [margeEdge, homerEdge] myOrg myOrg
     [kyleOwner, bartOwner, lisaOwner] [lisaOwner, kyleOwner, bartOwner]
     (by decide) (by decide) rfl rfl⟩

/-- The UNWIND step of phase 2 leaves the users of other ids untouched, and
at its own id it keeps the previous role, has_2fa_enabled and firstseen
while setting is_enterprise_owner to TRUE and lastupdated to the tag. -/
theorem unaffStep_users_eq (orgUrl : String) (now : Nat) (tag : Int)
    (acc : GraphState) (o : OwnerEdge) :
    (unaffStep orgUrl now tag acc o).users =
      (upsertUnaffiliatedUser acc o now tag).users := rfl

/-- Preservation of role and has_2fa_enabled through one phase-2 step. -/
theorem unaffStep_preserves_role_2fa (orgUrl : String) (now : Nat) (tag : Int)
    (uid : String) (r : Option String) (t : Option Bool)
    (acc : GraphState) (o : OwnerEdge)
    (h : ∃ q, acc.users uid = some q ∧ q.role = r ∧ q.has_2fa_enabled = t) :
    ∃ q, (unaffStep orgUrl now tag acc o).users uid = some q ∧ q.role = r ∧
      q.has_2fa_enabled = t := by
  obtain ⟨q, hq, hr, ht⟩ := h
  rw [unaffStep_users_eq]
  by_cases hk : uid = o.node.url
  · subst hk
    refine ⟨{ firstseen := q.firstseen, lastupdated := tag, fullname := o.node.name
              username := o.node.login, has_2fa_enabled := q.has_2fa_enabled
              role := q.role, is_site_admin := o.node.isSiteAdmin
              is_enterprise_owner := true, email := o.node.email
              company := o.node.company }, ?_, hr, ht⟩
    simp [upsertUnaffiliatedUser, hq]
  · exact ⟨q, by simp [upsertUnaffiliatedUser, hk, hq], hr, ht⟩

/-- C1: phase 2 (`load_unaffiliated_owners`) omits role and has_2fa_enabled
from its SET clause, so for every user node already in the graph, running
it (for that id or any other) leaves those two attributes unchanged. -/
theorem load_unaffiliated_preserves_role_2fa (g : GraphState)
    (ownerData : List OwnerEdge) (orgData : OrgData) (now : Nat) (tag : Int)
    (uid : String) (p : UserProps) (h : g.users uid = some p) :
    ∃ q, (loadUnaffiliatedOwners g ownerData orgData now tag).users uid = some q ∧
      q.role = p.role ∧ q.has_2fa_enabled = p.has_2fa_enabled := by
  unfold loadUnaffiliatedOwners
  exact foldlPreserve (f := unaffStep orgData.url now tag)
    (P := fun acc => ∃ q, acc.users uid = some q ∧ q.role = p.role ∧
      q.has_2fa_enabled = p.has_2fa_enabled)
    (fun a b hP => unaffStep_preserves_role_2fa orgData.url now tag uid p.role
      p.has_2fa_enabled a b hP)
    ownerData (mergeOrg g orgData.url orgData.login now tag) ⟨p, h, rfl, rfl⟩

/-- Marge's member edge as decorated by a phase-1 run in which she is not an
enterprise owner. -/
def margeDecorated : DecoratedMember :=
  { hasTwoFactorEnabled := some true
    node := { base := margeEdge.node, isEnterpriseOwner := false }
    role := "ADMIN" }

/-- Marge listed as an UNAFFILIATED enterprise owner by a later run against
a different organization. -/
def margeUnaffOwner : OwnerEdge :=
  { node := margeEdge.node, organizationRole := "UNAFFILIATED" }

/-- The graph after a phase-1 run that wrote Marge with role ADMIN and
has_2fa_enabled true. -/
def priorGraph : GraphState :=
  loadOrganizationUsers GraphState.empty [margeDecorated] myOrg 5 100

/-- Marge's node properties as written by that phase-1 run. -/
def margeProps : UserProps :=
  { firstseen := 5, lastupdated := 100, fullname := some "Marge Simpson"
    username := "mbsimpson", has_2fa_enabled := some true, role := some "ADMIN"
    is_site_admin := false, is_enterprise_owner := false
    email := some "mbsimpson@example.com", company := some "Simpson Residence" }

/-- Witness for C1: after phase 1 wrote Marge with role ADMIN and 2FA true, a
phase-2 run for the same id leaves both attributes unchanged. -/
theorem load_unaffiliated_preserves_role_2fa_witness :
    priorGraph.users "https://example.com/mbsimpson" = some margeProps ∧
    margeProps.role = some "ADMIN" ∧ margeProps.has_2fa_enabled = some true ∧
    ∃ q, (loadUnaffiliatedOwners priorGraph [margeUnaffOwner] otherOrg 6 200).users
        "https://example.com/mbsimpson" = some q ∧
      q.role = margeProps.role ∧ q.has_2fa_enabled = margeProps.has_2fa_enabled :=
  ⟨rfl, rfl, rfl,
   load_unaffiliated_preserves_role_2fa priorGraph [margeUnaffOwner] otherOrg 6 200
     "https://example.com/mbsimpson" margeProps rfl⟩

/-- The phase-2 MERGE at its own id: the written node keeps the previous
firstseen, role and has_2fa_enabled (absent on a fresh node) and gets the
reduced property set with is_enterprise_owner TRUE. -/
theorem upsertUnaffiliatedUser_users_self (acc : GraphState) (o : OwnerEdge)
    (now : Nat) (tag : Int) :
    (upsertUnaffiliatedUser acc o now tag).users o.node.url = some
      { firstseen := match acc.users o.node.url with
          | some p => p.firstseen
          | none => now
        lastupdated := tag
        fullname := o.node.name
        username := o.node.login
        has_2fa_enabled := match acc.users o.node.url with
          | some p => p.has_2fa_enabled
          | none => none
        role := match acc.users o.node.url with
          | some p => p.role
          | none => none
        is_site_admin := o.node.isSiteAdmin
        is_enterprise_owner := true
        email := o.node.email
        company := o.node.company } := by
  simp [upsertUnaffiliatedUser]

/-- After one phase-2 step, the node at the step's own url carries
is_enterprise_owner TRUE. -/
theorem unaffStep_flag_self (orgUrl : String) (now : Nat) (tag : Int)
    (acc : GraphState) (o : OwnerEdge) :
    ∃ q, (unaffStep orgUrl now tag acc o).users o.node.url = some q ∧
      q.is_enterprise_owner = true := by
  rw [unaffStep_users_eq]
  exact ⟨_, upsertUnaffiliatedUser_users_self acc o now tag, rfl⟩

/-- A node known to carry is_enterprise_owner TRUE still carries it after any
phase-2 step. -/
theorem unaffStep_preserves_flag (orgUrl : String) (now : Nat) (tag : Int)
    (uid : String) (acc : GraphState) (o : OwnerEdge)
    (h : ∃ q, acc.users uid = some q ∧ q.is_enterprise_owner = true) :
    ∃ q, (unaffStep orgUrl now tag acc o).users uid = some q ∧
      q.is_enterprise_owner = true := by
  by_cases hk : uid = o.node.url
  · subst hk
    exact unaffStep_flag_self orgUrl now tag acc o
  · obtain ⟨q, hq, hf⟩ := h
    rw [unaffStep_users_eq]
    exact ⟨q, by simp [upsertUnaffiliatedUser, hk, hq], hf⟩

/-- Every owner in the phase-2 batch ends the fold with a node whose
is_enterprise_owner is TRUE. -/
theorem unaffFold_flag (orgUrl : String) (now : Nat) (tag : Int) :
    ∀ (data : List OwnerEdge) (g : GraphState), ∀ o ∈ data,
      ∃ q, (data.foldl (unaffStep orgUrl now tag) g).users o.node.url = some q ∧
        q.is_enterprise_owner = true := by
  intro data
  induction data with
  | nil =>
    intro g o ho
    cases ho
  | cons o1 rest ih =>
    intro g o ho
    rw [List.foldl_cons]
    rcases List.mem_cons.mp ho with he | hrest
    · subst he
      exact foldlPreserve (f := unaffStep orgUrl now tag)
        (P := fun acc => ∃ q, acc.users o.node.url = some q ∧
          q.is_enterprise_owner = true)
        (fun a b hP => unaffStep_preserves_flag orgUrl now tag o.node.url a b hP)
        rest _ (unaffStep_flag_self orgUrl now tag g o)
    · exact ih (unaffStep orgUrl now tag g o1) o hrest

/-- C9: in phase 2 (`load_unaffiliated_owners`) the is_enterprise_owner
property is SET to TRUE on every written user node, regardless of the input
record and of any pre-existing value on the node. -/
theorem load_unaffiliated_forces_owner_flag (g : GraphState)
    (ownerData : List OwnerEdge) (orgData : OrgData) (now : Nat) (tag : Int) :
    ∀ o ∈ ownerData,
      ∃ q, (loadUnaffiliatedOwners g ownerData orgData now tag).users o.node.url =
          some q ∧ q.is_enterprise_owner = true := by
  intro o ho
  unfold loadUnaffiliatedOwners
  exact unaffFold_flag orgData.url now tag ownerData
    (mergeOrg g orgData.url orgData.login now tag) o ho

/-- Witness for C9: Marge's node pre-exists with is_enterprise_owner false,
and the phase-2 run for her id forces it to true. -/
theorem load_unaffiliated_forces_owner_flag_witness :
    (margeUnaffOwner ∈ [margeUnaffOwner] ∧
      priorGraph.users margeUnaffOwner.node.url = some margeProps ∧
      margeProps.is_enterprise_owner = false) ∧
    (∃ q, (loadUnaffiliatedOwners priorGraph [margeUnaffOwner] otherOrg 6 200).users
        margeUnaffOwner.node.url = some q ∧ q.is_enterprise_owner = true) :=
  ⟨⟨by decide, rfl, rfl⟩,
   load_unaffiliated_forces_owner_flag priorGraph [margeUnaffOwner] otherOrg 6 200
     margeUnaffOwner (by decide)⟩

/-- The phase-1 MERGE at its own id: the written node keeps the previous
firstseen (now on a fresh node) and gets the full affiliated property set. -/
theorem upsertMemberUser_users_self (acc : GraphState) (u : DecoratedMember)
    (now : Nat) (tag : Int) :
    (upsertMemberUser acc u now tag).users u.node.base.url = some
      { firstseen := match acc.users u.node.base.url with
          | some p => p.firstseen
          | none => now
        lastupdated := tag
        fullname := u.node.base.name
        username := u.node.base.login
        has_2fa_enabled := u.hasTwoFactorEnabled
        role := some u.role
        is_site_admin := u.node.base.isSiteAdmin
        is_enterprise_owner := u.node.isEnterpriseOwner
        email := u.node.base.email
        company := u.node.base.company } := by
  simp [upsertMemberUser]

/-- The UNWIND step of phase 1 changes the users component exactly as its
user MERGE does. -/
theorem memberStep_users_eq (orgUrl : String) (now : Nat) (tag : Int)
    (acc : GraphState) (u : DecoratedMember) :
    (memberStep orgUrl now tag acc u).users =
      (upsertMemberUser acc u now tag).users := rfl

/-- A user node's firstseen survives one phase-1 step. -/
theorem memberStep_preserves_fs (orgUrl : String) (now : Nat) (tag : Int)
    (uid : String) (fs0 : Nat) (acc : GraphState) (u : DecoratedMember)
    (h : ∃ q, acc.users uid = some q ∧ q.firstseen = fs0) :
    ∃ q, (memberStep orgUrl now tag acc u).users uid = some q ∧ q.firstseen = fs0 := by
  obtain ⟨q, hq, hf⟩ := h
  rw [memberStep_users_eq]
  by_cases hk : uid = u.node.base.url
  · subst hk
    refine ⟨_, upsertMemberUser_users_self acc u now tag, ?_⟩
    simp [hq, hf]
  · exact ⟨q, by simp [upsertMemberUser, hk, hq], hf⟩

/-- A user node's firstseen survives one phase-2 step. -/
theorem unaffStep_preserves_fs (orgUrl : String) (now : Nat) (tag : Int)
    (uid : String) (fs0 : Nat) (acc : GraphState) (o : OwnerEdge)
    (h : ∃ q, acc.users uid = some q ∧ q.firstseen = fs0) :
    ∃ q, (unaffStep orgUrl now tag acc o).users uid = some q ∧ q.firstseen = fs0 := by
  obtain ⟨q, hq, hf⟩ := h
  rw [unaffStep_users_eq]
  by_cases hk : uid = o.node.url
  · subst hk
    refine ⟨_, upsertUnaffiliatedUser_users_self acc o now tag, ?_⟩
    simp [hq, hf]
  · exact ⟨q, by simp [upsertUnaffiliatedUser, hk, hq], hf⟩

/-- A user id that is absent, or was first created in this run (firstseen =
now), stays so across one phase-1 step. -/
theorem memberStep_none_or_now (orgUrl : String) (now : Nat) (tag : Int)
    (uid : String) (acc : GraphState) (u : DecoratedMember)
    (h : acc.users uid = none ∨ ∃ q, acc.users uid = some q ∧ q.firstseen = now) :
    (memberStep orgUrl now tag acc u).users uid = none ∨
      ∃ q, (memberStep orgUrl now tag acc u).users uid = some q ∧ q.firstseen = now := by
  rw [memberStep_users_eq]
  by_cases hk : uid = u.node.base.url
  · subst hk
    right
    refine ⟨_, upsertMemberUser_users_self acc u now tag, ?_⟩
    rcases h with h | ⟨q, hq, hf⟩
    · simp [h]
    · simp [hq, hf]
  · rcases h with h | ⟨q, hq, hf⟩
    · left
      simp [upsertMemberUser, hk, h]
    · right
      exact ⟨q, by simp [upsertMemberUser, hk, hq], hf⟩

/-- A user id that is absent, or was first created in this run (firstseen =
now), stays so across one phase-2 step. -/
theorem unaffStep_none_or_now (orgUrl : String) (now : Nat) (tag : Int)
    (uid : String) (acc : GraphState) (o : OwnerEdge)
    (h : acc.users uid = none ∨ ∃ q, acc.users uid = some q ∧ q.firstseen = now) :
    (unaffStep orgUrl now tag acc o).users uid = none ∨
      ∃ q, (unaffStep orgUrl now tag acc o).users uid = some q ∧ q.firstseen = now := by
  rw [unaffStep_users_eq]
  by_cases hk : uid = o.node.url
  · subst hk
    right
    refine ⟨_, upsertUnaffiliatedUser_users_self acc o now tag, ?_⟩
    rcases h with h | ⟨q, hq, hf⟩
    · simp [h]
    · simp [hq, hf]
  · rcases h with h | ⟨q, hq, hf⟩
    · left
      simp [upsertUnaffiliatedUser, hk, h]
    · right
      exact ⟨q, by simp [upsertUnaffiliatedUser, hk, hq], hf⟩

/-- A user node stamped with this run's tag keeps it through one phase-1
step (any overwrite stamps the same tag again). -/
theorem memberStep_preserves_lu (orgUrl : String) (now : Nat) (tag : Int)
    (uid : String) (acc : GraphState) (u : DecoratedMember)
    (h : ∃ q, acc.users uid = some q ∧ q.lastupdated = tag) :
    ∃ q, (memberStep orgUrl now tag acc u).users uid = some q ∧
      q.lastupdated = tag := by
  rw [memberStep_users_eq]
  by_cases hk : uid = u.node.base.url
  · subst hk
    exact ⟨_, upsertMemberUser_users_self acc u now tag, rfl⟩
  · obtain ⟨q, hq, hl2⟩ := h
    exact ⟨q, by simp [upsertMemberUser, hk, hq], hl2⟩

/-- A user node stamped with this run's tag keeps it through one phase-2
step (any overwrite stamps the same tag again). -/
theorem unaffStep_preserves_lu (orgUrl : String) (now : Nat) (tag : Int)
    (uid : String) (acc : GraphState) (o : OwnerEdge)
    (h : ∃ q, acc.users uid = some q ∧ q.lastupdated = tag) :
    ∃ q, (unaffStep orgUrl now tag acc o).users uid = some q ∧
      q.lastupdated = tag := by
  rw [unaffStep_users_eq]
  by_cases hk : uid = o.node.url
  · subst hk
    exact ⟨_, upsertUnaffiliatedUser_users_self acc o now tag, rfl⟩
  · obtain ⟨q, hq, hl2⟩ := h
    exact ⟨q, by simp [upsertUnaffiliatedUser, hk, hq], hl2⟩

/-- Every member in the phase-1 batch ends the fold with a node stamped with
this run's tag. -/
theorem memberFold_lu (orgUrl : String) (now : Nat) (tag : Int) :
    ∀ (data : List DecoratedMember) (g : GraphState), ∀ u ∈ data,
      ∃ q, (data.foldl (memberStep orgUrl now tag) g).users u.node.base.url =
          some q ∧ q.lastupdated = tag := by
  intro data
  induction data with
  | nil =>
    intro g u hu
    cases hu
  | cons u1 rest ih =>
    intro g u hu
    rw [List.foldl_cons]
    rcases List.mem_cons.mp hu with he | hrest
    · subst he
      refine foldlPreserve (f := memberStep orgUrl now tag)
        (P := fun acc => ∃ q, acc.users u.node.base.url = some q ∧
          q.lastupdated = tag)
        (fun a b hP => memberStep_preserves_lu orgUrl now tag u.node.base.url a b hP)
        rest _ ?_
      show ∃ q, (memberStep orgUrl now tag g u).users u.node.base.url = some q ∧
        q.lastupdated = tag
      rw [memberStep_users_eq]
      exact ⟨_, upsertMemberUser_users_self g u now tag, rfl⟩
    · exact ih (memberStep orgUrl now tag g u1) u hrest

/-- Every owner in the phase-2 batch ends the fold with a node stamped with
this run's tag. -/
theorem unaffFold_lu (orgUrl : String) (now : Nat) (tag : Int) :
    ∀ (data : List OwnerEdge) (g : GraphState), ∀ o ∈ data,
      ∃ q, (data.foldl (unaffStep orgUrl now tag) g).users o.node.url = some q ∧
        q.lastupdated = tag := by
  intro data
  induction data with
  | nil =>
    intro g o ho
    cases ho
  | cons o1 rest ih =>
    intro g o ho
    rw [List.foldl_cons]
    rcases List.mem_cons.mp ho with he | hrest
    · subst he
      refine foldlPreserve (f := unaffStep orgUrl now tag)
        (P := fun acc => ∃ q, acc.users o.node.url = some q ∧ q.lastupdated = tag)
        (fun a b hP => unaffStep_preserves_lu orgUrl now tag o.node.url a b hP)
        rest _ ?_
      show ∃ q, (unaffStep orgUrl now tag g o).users o.node.url = some q ∧
        q.lastupdated = tag
      rw [unaffStep_users_eq]
      exact ⟨_, upsertUnaffiliatedUser_users_self g o now tag, rfl⟩
    · exact ih (unaffStep orgUrl now tag g o1) o hrest

/-- The org MERGE at its own id: previous firstseen kept (now on a fresh
node), username and lastupdated refreshed. -/
theorem mergeOrg_orgs_self (g : GraphState) (ou ol : String) (now : Nat) (tag : Int) :
    (mergeOrg g ou ol now tag).orgs ou = some
      { firstseen := match g.orgs ou with
          | some p => p.firstseen
          | none => now
        username := ol
        lastupdated := tag } := by
  simp [mergeOrg]

/-- Phase-1 UNWIND steps do not touch org nodes, so the whole fold leaves
the orgs component exactly as the initial org MERGE left it. -/
theorem loadOrg_orgs_eq (g : GraphState) (data : List DecoratedMember)
    (orgData : OrgData) (now : Nat) (tag : Int) :
    (loadOrganizationUsers g data orgData now tag).orgs =
      (mergeOrg g orgData.url orgData.login now tag).orgs :=
  foldlPreserve (f := memberStep orgData.url now tag)
    (P := fun acc => acc.orgs = (mergeOrg g orgData.url orgData.login now tag).orgs)
    (fun _ _ h => h) data _ rfl

/-- Phase-2 UNWIND steps do not touch org nodes either. -/
theorem loadUnaff_orgs_eq (g : GraphState) (data : List OwnerEdge)
    (orgData : OrgData) (now : Nat) (tag : Int) :
    (loadUnaffiliatedOwners g data orgData now tag).orgs =
      (mergeOrg g orgData.url orgData.login now tag).orgs :=
  foldlPreserve (f := unaffStep orgData.url now tag)
    (P := fun acc => acc.orgs = (mergeOrg g orgData.url orgData.login now tag).orgs)
    (fun _ _ h => h) data _ rfl

/-- Phase 1 never touches UNAFFILIATED relationships. -/
theorem loadOrg_unaffRels_eq (g : GraphState) (data : List DecoratedMember)
    (orgData : OrgData) (now : Nat) (tag : Int) :
    (loadOrganizationUsers g data orgData now tag).unaffiliated = g.unaffiliated :=
  foldlPreserve (f := memberStep orgData.url now tag)
    (P := fun acc => acc.unaffiliated = g.unaffiliated)
    (fun _ _ h => h) data _ rfl

/-- Phase 2 never touches MEMBER_OF relationships. -/
theorem loadUnaff_memberOf_eq (g : GraphState) (data : List OwnerEdge)
    (orgData : OrgData) (now : Nat) (tag : Int) :
    (loadUnaffiliatedOwners g data orgData now tag).memberOf = g.memberOf :=
  foldlPreserve (f := unaffStep orgData.url now tag)
    (P := fun acc => acc.memberOf = g.memberOf)
    (fun _ _ h => h) data _ rfl

/-- The user MERGE of phase 1 does not touch MEMBER_OF relationships. -/
theorem upsertMemberUser_memberOf (acc : GraphState) (u : DecoratedMember)
    (now : Nat) (tag : Int) :
    (upsertMemberUser acc u now tag).memberOf = acc.memberOf := rfl

/-- The MEMBER_OF MERGE of one phase-1 step at its own key: previous
firstseen kept (now on a fresh relationship), lastupdated refreshed. -/
theorem memberStep_memberOf_self (orgUrl : String) (now : Nat) (tag : Int)
    (acc : GraphState) (u : DecoratedMember) :
    (memberStep orgUrl now tag acc u).memberOf u.node.base.url orgUrl = some
      { firstseen := match acc.memberOf u.node.base.url orgUrl with
          | some p => p.firstseen
          | none => now
        lastupdated := tag } := by
  simp [memberStep, mergeMemberOfRel, upsertMemberUser_memberOf]

/-- A MEMBER_OF relationship's firstseen survives one phase-1 step. -/
theorem memberStep_rel_pres_fs (orgUrl : String) (now : Nat) (tag : Int)
    (a b : String) (fs0 : Nat) (acc : GraphState) (u : DecoratedMember)
    (h : ∃ q, acc.memberOf a b = some q ∧ q.firstseen = fs0) :
    ∃ q, (memberStep orgUrl now tag acc u).memberOf a b = some q ∧
      q.firstseen = fs0 := by
  obtain ⟨q, hq, hf⟩ := h
  by_cases hk : a = u.node.base.url ∧ b = orgUrl
  · obtain ⟨h1, h2⟩ := hk
    rw [h1, h2] at hq ⊢
    refine ⟨_, memberStep_memberOf_self orgUrl now tag acc u, ?_⟩
    simp [hq, hf]
  · exact ⟨q, by simp [memberStep, mergeMemberOfRel, upsertMemberUser_memberOf, hk, hq], hf⟩

/-- A MEMBER_OF key that is absent, or was first created in this run, stays
so across one phase-1 step. -/
theorem memberStep_rel_none_or_now (orgUrl : String) (now : Nat) (tag : Int)
    (a b : String) (acc : GraphState) (u : DecoratedMember)
    (h : acc.memberOf a b = none ∨
      ∃ q, acc.memberOf a b = some q ∧ q.firstseen = now) :
    (memberStep orgUrl now tag acc u).memberOf a b = none ∨
      ∃ q, (memberStep orgUrl now tag acc u).memberOf a b = some q ∧
        q.firstseen = now := by
  by_cases hk : a = u.node.base.url ∧ b = orgUrl
  · obtain ⟨h1, h2⟩ := hk
    rw [h1, h2] at h ⊢
    right
    refine ⟨_, memberStep_memberOf_self orgUrl now tag acc u, ?_⟩
    rcases h with h | ⟨q, hq, hf⟩
    · simp [h]
    · simp [hq, hf]
  · rcases h with h | ⟨q, hq, hf⟩
    · left
      simp [memberStep, mergeMemberOfRel, upsertMemberUser_memberOf, hk, h]
    · right
      exact ⟨q, by simp [memberStep, mergeMemberOfRel, upsertMemberUser_memberOf, hk, hq], hf⟩

/-- A MEMBER_OF relationship stamped with this run's tag keeps it through
one phase-1 step. -/
theorem memberStep_rel_pres_lu (orgUrl : String) (now : Nat) (tag : Int)
    (a b : String) (acc : GraphState) (u : DecoratedMember)
    (h : ∃ q, acc.memberOf a b = some q ∧ q.lastupdated = tag) :
    ∃ q, (memberStep orgUrl now tag acc u).memberOf a b = some q ∧
      q.lastupdated = tag := by
  by_cases hk : a = u.node.base.url ∧ b = orgUrl
  · obtain ⟨h1, h2⟩ := hk
    rw [h1, h2]
    exact ⟨_, memberStep_memberOf_self orgUrl now tag acc u, rfl⟩
  · obtain ⟨q, hq, hl2⟩ := h
    exact ⟨q, by simp [memberStep, mergeMemberOfRel, upsertMemberUser_memberOf, hk, hq], hl2⟩

/-- Every member in the phase-1 batch ends the fold with a MEMBER_OF
relationship stamped with this run's tag. -/
theorem memberFold_rel_lu (orgUrl : String) (now : Nat) (tag : Int) :
    ∀ (data : List DecoratedMember) (g : GraphState), ∀ u ∈ data,
      ∃ q, (data.foldl (memberStep orgUrl now tag) g).memberOf
          u.node.base.url orgUrl = some q ∧ q.lastupdated = tag := by
  intro data
  induction data with
  | nil =>
    intro g u hu
    cases hu
  | cons u1 rest ih =>
    intro g u hu
    rw [List.foldl_cons]
    rcases List.mem_cons.mp hu with he | hrest
    · subst he
      refine foldlPreserve (f := memberStep orgUrl now tag)
        (P := fun acc => ∃ q, acc.memberOf u.node.base.url orgUrl = some q ∧
          q.lastupdated = tag)
        (fun a b hP => memberStep_rel_pres_lu orgUrl now tag u.node.base.url orgUrl a b hP)
        rest _ ?_
      exact ⟨_, memberStep_memberOf_self orgUrl now tag g u, rfl⟩
    · exact ih (memberStep orgUrl now tag g u1) u hrest

/-- The user MERGE of phase 2 does not touch UNAFFILIATED relationships. -/
theorem upsertUnaffiliatedUser_unaffRels (acc : GraphState) (o : OwnerEdge)
    (now : Nat) (tag : Int) :
    (upsertUnaffiliatedUser acc o now tag).unaffiliated = acc.unaffiliated := rfl

/-- The UNAFFILIATED MERGE of one phase-2 step at its own key: previous
firstseen kept (now on a fresh relationship), lastupdated refreshed. -/
theorem unaffStep_unaffRel_self (orgUrl : String) (now : Nat) (tag : Int)
    (acc : GraphState) (o : OwnerEdge) :
    (unaffStep orgUrl now tag acc o).unaffiliated o.node.url orgUrl = some
      { firstseen := match acc.unaffiliated o.node.url orgUrl with
          | some p => p.firstseen
          | none => now
        lastupdated := tag } := by
  simp [unaffStep, mergeUnaffiliatedRel, upsertUnaffiliatedUser_unaffRels]

/-- An UNAFFILIATED relationship's firstseen survives one phase-2 step. -/
theorem unaffStep_rel_pres_fs (orgUrl : String) (now : Nat) (tag : Int)
    (a b : String) (fs0 : Nat) (acc : GraphState) (o : OwnerEdge)
    (h : ∃ q, acc.unaffiliated a b = some q ∧ q.firstseen = fs0) :
    ∃ q, (unaffStep orgUrl now tag acc o).unaffiliated a b = some q ∧
      q.firstseen = fs0 := by
  obtain ⟨q, hq, hf⟩ := h
  by_cases hk : a = o.node.url ∧ b = orgUrl
  · obtain ⟨h1, h2⟩ := hk
    rw [h1, h2] at hq ⊢
    refine ⟨_, unaffStep_unaffRel_self orgUrl now tag acc o, ?_⟩
    simp [hq, hf]
  · exact ⟨q, by simp [unaffStep, mergeUnaffiliatedRel,
      upsertUnaffiliatedUser_unaffRels, hk, hq], hf⟩

/-- An UNAFFILIATED key that is absent, or was first created in this run,
stays so across one phase-2 step. -/
theorem unaffStep_rel_none_or_now (orgUrl : String) (now : Nat) (tag : Int)
    (a b : String) (acc : GraphState) (o : OwnerEdge)
    (h : acc.unaffiliated a b = none ∨
      ∃ q, acc.unaffiliated a b = some q ∧ q.firstseen = now) :
    (unaffStep orgUrl now tag acc o).unaffiliated a b = none ∨
      ∃ q, (unaffStep orgUrl now tag acc o).unaffiliated a b = some q ∧
        q.firstseen = now := by
  by_cases hk : a = o.node.url ∧ b = orgUrl
  · obtain ⟨h1, h2⟩ := hk
    rw [h1, h2] at h ⊢
    right
    refine ⟨_, unaffStep_unaffRel_self orgUrl now tag acc o, ?_⟩
    rcases h with h | ⟨q, hq, hf⟩
    · simp [h]
    · simp [hq, hf]
  · rcases h with h | ⟨q, hq, hf⟩
    · left
      simp [unaffStep, mergeUnaffiliatedRel, upsertUnaffiliatedUser_unaffRels, hk, h]
    · right
      exact ⟨q, by simp [unaffStep, mergeUnaffiliatedRel,
        upsertUnaffiliatedUser_unaffRels, hk, hq], hf⟩

/-- An UNAFFILIATED relationship stamped with this run's tag keeps it
through one phase-2 step. -/
theorem unaffStep_rel_pres_lu (orgUrl : String) (now : Nat) (tag : Int)
    (a b : String) (acc : GraphState) (o : OwnerEdge)
    (h : ∃ q, acc.unaffiliated a b = some q ∧ q.lastupdated = tag) :
    ∃ q, (unaffStep orgUrl now tag acc o).unaffiliated a b = some q ∧
      q.lastupdated = tag := by
  by_cases hk : a = o.node.url ∧ b = orgUrl
  · obtain ⟨h1, h2⟩ := hk
    rw [h1, h2]
    exact ⟨_, unaffStep_unaffRel_self orgUrl now tag acc o, rfl⟩
  · obtain ⟨q, hq, hl2⟩ := h
    exact ⟨q, by simp [unaffStep, mergeUnaffiliatedRel,
      upsertUnaffiliatedUser_unaffRels, hk, hq], hl2⟩

/-- Every owner in the phase-2 batch ends the fold with an UNAFFILIATED
relationship stamped with this run's tag. -/
theorem unaffFold_rel_lu (orgUrl : String) (now : Nat) (tag : Int) :
    ∀ (data : List OwnerEdge) (g : GraphState), ∀ o ∈ data,
      ∃ q, (data.foldl (unaffStep orgUrl now tag) g).unaffiliated
          o.node.url orgUrl = some q ∧ q.lastupdated = tag := by
  intro data
  induction data with
  | nil =>
    intro g o ho
    cases ho
  | cons o1 rest ih =>
    intro g o ho
    rw [List.foldl_cons]
    rcases List.mem_cons.mp ho with he | hrest
    · subst he
      refine foldlPreserve (f := unaffStep orgUrl now tag)
        (P := fun acc => ∃ q, acc.unaffiliated o.node.url orgUrl = some q ∧
          q.lastupdated = tag)
        (fun a b hP => unaffStep_rel_pres_lu orgUrl now tag o.node.url orgUrl a b hP)
        rest _ ?_
      exact ⟨_, unaffStep_unaffRel_self orgUrl now tag g o, rfl⟩
    · exact ih (unaffStep orgUrl now tag g o1) o hrest

/-- Phase 1 preserves the firstseen of every pre-existing user node. -/
theorem loadOrg_users_fs_pres (g : GraphState) (data : List DecoratedMember)
    (orgData : OrgData) (now : Nat) (tag : Int) (uid : String) (fs0 : Nat)
    (h : ∃ q, g.users uid = some q ∧ q.firstseen = fs0) :
    ∃ q, (loadOrganizationUsers g data orgData now tag).users uid = some q ∧
      q.firstseen = fs0 := by
  unfold loadOrganizationUsers
  exact foldlPreserve (f := memberStep orgData.url now tag)
    (P := fun acc => ∃ q, acc.users uid = some q ∧ q.firstseen = fs0)
    (fun a b hP => memberStep_preserves_fs orgData.url now tag uid fs0 a b hP)
    data _ h

/-- Phase 2 preserves the firstseen of every pre-existing user node. -/
theorem loadUnaff_users_fs_pres (g : GraphState) (data : List OwnerEdge)
    (orgData : OrgData) (now : Nat) (tag : Int) (uid : String) (fs0 : Nat)
    (h : ∃ q, g.users uid = some q ∧ q.firstseen = fs0) :
    ∃ q, (loadUnaffiliatedOwners g data orgData now tag).users uid = some q ∧
      q.firstseen = fs0 := by
  unfold loadUnaffiliatedOwners
  exact foldlPreserve (f := unaffStep orgData.url now tag)
    (P := fun acc => ∃ q, acc.users uid = some q ∧ q.firstseen = fs0)
    (fun a b hP => unaffStep_preserves_fs orgData.url now tag uid fs0 a b hP)
    data _ h

/-- After phase 1, a previously absent user id is still absent or was
created in this run with firstseen = now. -/
theorem loadOrg_users_none_or_now (g : GraphState) (data : List DecoratedMember)
    (orgData : OrgData) (now : Nat) (tag : Int) (uid : String)
    (h : g.users uid = none) :
    (loadOrganizationUsers g data orgData now tag).users uid = none ∨
      ∃ q, (loadOrganizationUsers g data orgData now tag).users uid = some q ∧
        q.firstseen = now := by
  unfold loadOrganizationUsers
  exact foldlPreserve (f := memberStep orgData.url now tag)
    (P := fun acc => acc.users uid = none ∨
      ∃ q, acc.users uid = some q ∧ q.firstseen = now)
    (fun a b hP => memberStep_none_or_now orgData.url now tag uid a b hP)
    data _ (Or.inl h)

/-- After phase 2, a previously absent-or-created-now user id is still
absent or has firstseen = now. -/
theorem loadUnaff_users_none_or_now (g : GraphState) (data : List OwnerEdge)
    (orgData : OrgData) (now : Nat) (tag : Int) (uid : String)
    (h : g.users uid = none ∨ ∃ q, g.users uid = some q ∧ q.firstseen = now) :
    (loadUnaffiliatedOwners g data orgData now tag).users uid = none ∨
      ∃ q, (loadUnaffiliatedOwners g data orgData now tag).users uid = some q ∧
        q.firstseen = now := by
  unfold loadUnaffiliatedOwners
  exact foldlPreserve (f := unaffStep orgData.url now tag)
    (P := fun acc => acc.users uid = none ∨
      ∃ q, acc.users uid = some q ∧ q.firstseen = now)
    (fun a b hP => unaffStep_none_or_now orgData.url now tag uid a b hP)
    data _ h

/-- Phase 1 stamps this run's tag on the node of every member in its batch. -/
theorem loadOrg_users_lu (g : GraphState) (data : List DecoratedMember)
    (orgData : OrgData) (now : Nat) (tag : Int) (u : DecoratedMember)
    (hu : u ∈ data) :
    ∃ q, (loadOrganizationUsers g data orgData now tag).users u.node.base.url =
        some q ∧ q.lastupdated = tag := by
  unfold loadOrganizationUsers
  exact memberFold_lu orgData.url now tag data _ u hu

/-- Phase 2 stamps this run's tag on the node of every owner in its batch. -/
theorem loadUnaff_users_lu (g : GraphState) (data : List OwnerEdge)
    (orgData : OrgData) (now : Nat) (tag : Int) (o : OwnerEdge) (ho : o ∈ data) :
    ∃ q, (loadUnaffiliatedOwners g data orgData now tag).users o.node.url =
        some q ∧ q.lastupdated = tag := by
  unfold loadUnaffiliatedOwners
  exact unaffFold_lu orgData.url now tag data _ o ho

/-- Phase 2 keeps this run's tag on every node already stamped with it. -/
theorem loadUnaff_users_lu_pres (g : GraphState) (data : List OwnerEdge)
    (orgData : OrgData) (now : Nat) (tag : Int) (uid : String)
    (h : ∃ q, g.users uid = some q ∧ q.lastupdated = tag) :
    ∃ q, (loadUnaffiliatedOwners g data orgData now tag).users uid = some q ∧
      q.lastupdated = tag := by
  unfold loadUnaffiliatedOwners
  exact foldlPreserve (f := unaffStep orgData.url now tag)
    (P := fun acc => ∃ q, acc.users uid = some q ∧ q.lastupdated = tag)
    (fun a b hP => unaffStep_preserves_lu orgData.url now tag uid a b hP)
    data _ h

/-- Phase 1 preserves the firstseen of every pre-existing MEMBER_OF
relationship. -/
theorem loadOrg_rel_fs_pres (g : GraphState) (data : List DecoratedMember)
    (orgData : OrgData) (now : Nat) (tag : Int) (a b : String) (fs0 : Nat)
    (h : ∃ q, g.memberOf a b = some q ∧ q.firstseen = fs0) :
    ∃ q, (loadOrganizationUsers g data orgData now tag).memberOf a b = some q ∧
      q.firstseen = fs0 := by
  unfold loadOrganizationUsers
  exact foldlPreserve (f := memberStep orgData.url now tag)
    (P := fun acc => ∃ q, acc.memberOf a b = some q ∧ q.firstseen = fs0)
    (fun x y hP => memberStep_rel_pres_fs orgData.url now tag a b fs0 x y hP)
    data _ h

/-- After phase 1, a previously absent MEMBER_OF key is still absent or was
created in this run with firstseen = now. -/
theorem loadOrg_rel_none_or_now (g : GraphState) (data : List DecoratedMember)
    (orgData : OrgData) (now : Nat) (tag : Int) (a b : String)
    (h : g.memberOf a b = none) :
    (loadOrganizationUsers g data orgData now tag).memberOf a b = none ∨
      ∃ q, (loadOrganizationUsers g data orgData now tag).memberOf a b = some q ∧
        q.firstseen = now := by
  unfold loadOrganizationUsers
  exact foldlPreserve (f := memberStep orgData.url now tag)
    (P := fun acc => acc.memberOf a b = none ∨
      ∃ q, acc.memberOf a b = some q ∧ q.firstseen = now)
    (fun x y hP => memberStep_rel_none_or_now orgData.url now tag a b x y hP)
    data _ (Or.inl h)

/-- Phase 1 stamps this run's tag on the MEMBER_OF relationship of every
member in its batch. -/
theorem loadOrg_rel_lu (g : GraphState) (data : List DecoratedMember)
    (orgData : OrgData) (now : Nat) (tag : Int) (u : DecoratedMember)
    (hu : u ∈ data) :
    ∃ q, (loadOrganizationUsers g data orgData now tag).memberOf
        u.node.base.url orgData.url = some q ∧ q.lastupdated = tag := by
  unfold loadOrganizationUsers
  exact memberFold_rel_lu orgData.url now tag data _ u hu

/-- Phase 2 preserves the firstseen of every pre-existing UNAFFILIATED
relationship. -/
theorem loadUnaff_rel_fs_pres (g : GraphState) (data : List OwnerEdge)
    (orgData : OrgData) (now : Nat) (tag : Int) (a b : String) (fs0 : Nat)
    (h : ∃ q, g.unaffiliated a b = some q ∧ q.firstseen = fs0) :
    ∃ q, (loadUnaffiliatedOwners g data orgData now tag).unaffiliated a b =
        some q ∧ q.firstseen = fs0 := by
  unfold loadUnaffiliatedOwners
  exact foldlPreserve (f := unaffStep orgData.url now tag)
    (P := fun acc => ∃ q, acc.unaffiliated a b = some q ∧ q.firstseen = fs0)
    (fun x y hP => unaffStep_rel_pres_fs orgData.url now tag a b fs0 x y hP)
    data _ h

/-- After phase 2, a previously absent UNAFFILIATED key is still absent or
was created in this run with firstseen = now. -/
theorem loadUnaff_rel_none_or_now (g : GraphState) (data : List OwnerEdge)
    (orgData : OrgData) (now : Nat) (tag : Int) (a b : String)
    (h : g.unaffiliated a b = none) :
    (loadUnaffiliatedOwners g data orgData now tag).unaffiliated a b = none ∨
      ∃ q, (loadUnaffiliatedOwners g data orgData now tag).unaffiliated a b =
          some q ∧ q.firstseen = now := by
  unfold loadUnaffiliatedOwners
  exact foldlPreserve (f := unaffStep orgData.url now tag)
    (P := fun acc => acc.unaffiliated a b = none ∨
      ∃ q, acc.unaffiliated a b = some q ∧ q.firstseen = now)
    (fun x y hP => unaffStep_rel_none_or_now orgData.url now tag a b x y hP)
    data _ (Or.inl h)

/-- Phase 2 stamps this run's tag on the UNAFFILIATED relationship of every
owner in its batch. -/
theorem loadUnaff_rel_lu (g : GraphState) (data : List OwnerEdge)
    (orgData : OrgData) (now : Nat) (tag : Int) (o : OwnerEdge) (ho : o ∈ data) :
    ∃ q, (loadUnaffiliatedOwners g data orgData now tag).unaffiliated
        o.node.url orgData.url = some q ∧ q.lastupdated = tag := by
  unfold loadUnaffiliatedOwners
  exact unaffFold_rel_lu orgData.url now tag data _ o ho

/-- With matching org descriptors and a healthy session, `sync` runs phase 1
on the decorated members and then phase 2 on the unaffiliated owners. -/
theorem sync_success_graph (g : GraphState) (M : List MemberEdge) (uo : OrgData)
    (O : List OwnerEdge) (oo : OrgData) (tag : Int) (now : Nat)
    (hu : uo.url = oo.url) (hl : uo.login = oo.login) :
    (sync g M uo O oo tag now ⟨true, true, true⟩).graph =
      loadUnaffiliatedOwners
        (loadOrganizationUsers g
          (M.map (fun u =>
            { hasTwoFactorEnabled := u.hasTwoFactorEnabled
              node := { base := u.node
                        isEnterpriseOwner :=
                          (ownerUrlList (partitionOwnerEdges O).1).contains u.node.url }
              role := u.role }))
          uo now tag)
        (partitionOwnerEdges O).2 oo now tag := by
  simp [sync, markUsersAsEnterpriseOwners, hu, hl]

/-- The org node after the two phases of one run: firstseen kept from the
prior graph (now on a fresh node), login and lastupdated refreshed. -/
theorem twoPhase_orgs_self (g : GraphState) (processed : List DecoratedMember)
    (unaff : List OwnerEdge) (uo oo : OrgData) (now : Nat) (tag : Int)
    (hu : uo.url = oo.url) :
    (loadUnaffiliatedOwners (loadOrganizationUsers g processed uo now tag)
        unaff oo now tag).orgs uo.url =
      some { firstseen := match g.orgs uo.url with
               | some p => p.firstseen
               | none => now
             username := oo.login
             lastupdated := tag } := by
  have hg1 : (loadOrganizationUsers g processed uo now tag).orgs oo.url =
      some { firstseen := match g.orgs uo.url with
               | some p => p.firstseen
               | none => now
             username := uo.login
             lastupdated := tag } := by
    rw [loadOrg_orgs_eq, ← hu, mergeOrg_orgs_self]
  rw [loadUnaff_orgs_eq, hu, mergeOrg_orgs_self, hg1]
  simp [hu]

/-- C7: in one successful sync run (both phases driven by the same UpdateTag)
every touched GitHubUser node, GitHubOrganization node, MEMBER_OF and
UNAFFILIATED relationship gets lastupdated = the run's tag; firstseen is
kept unchanged wherever it already existed, and set to the run's timestamp
exactly when the node or relationship is first created. -/
theorem sync_firstseen_lastupdated (g : GraphState) (M : List MemberEdge)
    (uo : OrgData) (O : List OwnerEdge) (oo : OrgData) (tag : Int) (now : Nat)
    (hu : uo.url = oo.url) (hl : uo.login = oo.login) :
    (∀ uid p, g.users uid = some p →
      ∃ q, (sync g M uo O oo tag now ⟨true, true, true⟩).graph.users uid = some q ∧
        q.firstseen = p.firstseen) ∧
    (∀ uid, g.users uid = none →
      (sync g M uo O oo tag now ⟨true, true, true⟩).graph.users uid = none ∨
      ∃ q, (sync g M uo O oo tag now ⟨true, true, true⟩).graph.users uid = some q ∧
        q.firstseen = now) ∧
    (∀ m ∈ M,
      ∃ q, (sync g M uo O oo tag now ⟨true, true, true⟩).graph.users m.node.url =
        some q ∧ q.lastupdated = tag) ∧
    (∀ o ∈ O, o.organizationRole = "UNAFFILIATED" →
      ∃ q, (sync g M uo O oo tag now ⟨true, true, true⟩).graph.users o.node.url =
        some q ∧ q.lastupdated = tag) ∧
    (∀ p, g.orgs uo.url = some p →
      ∃ q, (sync g M uo O oo tag now ⟨true, true, true⟩).graph.orgs uo.url = some q ∧
        q.firstseen = p.firstseen ∧ q.lastupdated = tag) ∧
    (g.orgs uo.url = none →
      ∃ q, (sync g M uo O oo tag now ⟨true, true, true⟩).graph.orgs uo.url = some q ∧
        q.firstseen = now ∧ q.lastupdated = tag) ∧
    (∀ a b p, g.memberOf a b = some p →
      ∃ q, (sync g M uo O oo tag now ⟨true, true, true⟩).graph.memberOf a b = some q ∧
        q.firstseen = p.firstseen) ∧
    (∀ a b, g.memberOf a b = none →
      (sync g M uo O oo tag now ⟨true, true, true⟩).graph.memberOf a b = none ∨
      ∃ q, (sync g M uo O oo tag now ⟨true, true, true⟩).graph.memberOf a b = some q ∧
        q.firstseen = now) ∧
    (∀ m ∈ M,
      ∃ q, (sync g M uo O oo tag now ⟨true, true, true⟩).graph.memberOf
        m.node.url uo.url = some q ∧ q.lastupdated = tag) ∧
    (∀ a b p, g.unaffiliated a b = some p →
      ∃ q, (sync g M uo O oo tag now ⟨true, true, true⟩).graph.unaffiliated a b =
        some q ∧ q.firstseen = p.firstseen) ∧
    (∀ a b, g.unaffiliated a b = none →
      (sync g M uo O oo tag now ⟨true, true, true⟩).graph.unaffiliated a b = none ∨
      ∃ q, (sync g M uo O oo tag now ⟨true, true, true⟩).graph.unaffiliated a b =
        some q ∧ q.firstseen = now) ∧
    (∀ o ∈ O, o.organizationRole = "UNAFFILIATED" →
      ∃ q, (sync g M uo O oo tag now ⟨true, true, true⟩).graph.unaffiliated
        o.node.url uo.url = some q ∧ q.lastupdated = tag) := by
  have hg := sync_success_graph g M uo O oo tag now hu hl
  refine ⟨?_, ?_, ?_, ?_, ?_, ?_, ?_, ?_, ?_, ?_, ?_, ?_⟩
  · intro uid p hp
    rw [hg]
    exact loadUnaff_users_fs_pres _ _ _ _ _ _ _
      (loadOrg_users_fs_pres _ _ _ _ _ _ _ ⟨p, hp, rfl⟩)
  · intro uid hp
    rw [hg]
    exact loadUnaff_users_none_or_now _ _ _ _ _ _
      (loadOrg_users_none_or_now _ _ _ _ _ _ hp)
  · intro m hm
    rw [hg]
    exact loadUnaff_users_lu_pres _ _ _ _ _ _
      (loadOrg_users_lu _ _ _ _ _ _ (List.mem_map_of_mem _ hm))
  · intro o ho hrole
    rw [hg]
    have ho2 : o ∈ (partitionOwnerEdges O).2 := by
      rw [partitionOwnerEdges_eq_filter]
      simp [List.mem_filter, ho, hrole]
    exact loadUnaff_users_lu _ _ _ _ _ o ho2
  · intro p hp
    rw [hg, twoPhase_orgs_self g _ _ uo oo now tag hu]
    refine ⟨_, rfl, ?_, rfl⟩
    simp [hp]
  · intro hp
    rw [hg, twoPhase_orgs_self g _ _ uo oo now tag hu]
    refine ⟨_, rfl, ?_, rfl⟩
    simp [hp]
  · intro a b p hp
    rw [hg, loadUnaff_memberOf_eq]
    exact loadOrg_rel_fs_pres _ _ _ _ _ a b _ ⟨p, hp, rfl⟩
  · intro a b hp
    rw [hg, loadUnaff_memberOf_eq]
    exact loadOrg_rel_none_or_now _ _ _ _ _ a b hp
  · intro m hm
    rw [hg, loadUnaff_memberOf_eq]
    exact loadOrg_rel_lu _ _ _ _ _ _ (List.mem_map_of_mem _ hm)
  · intro a b p hp
    rw [hg]
    apply loadUnaff_rel_fs_pres
    rw [loadOrg_unaffRels_eq]
    exact ⟨p, hp, rfl⟩
  · intro a b hp
    rw [hg]
    apply loadUnaff_rel_none_or_now
    rw [loadOrg_unaffRels_eq]
    exact hp
  · intro o ho hrole
    rw [hg, hu]
    have ho2 : o ∈ (partitionOwnerEdges O).2 := by
      rw [partitionOwnerEdges_eq_filter]
      simp [List.mem_filter, ho, hrole]
    exact loadUnaff_rel_lu _ _ _ _ _ o ho2

/-- Witness for C7: a run on top of a prior graph keeps Marge's firstseen
and the org's firstseen, and stamps the new tag on the touched nodes and
relationships. -/
theorem sync_firstseen_lastupdated_witness :
    (priorGraph.users "https://example.com/mbsimpson" = some margeProps ∧
     priorGraph.orgs myOrg.url =
       some { firstseen := 5, username := "my_org", lastupdated := 100 } ∧
     homerEdge ∈ [homerEdge, margeEdge] ∧
     kyleOwner ∈ [kyleOwner, bartOwner, lisaOwner] ∧
     kyleOwner.organizationRole = "UNAFFILIATED") ∧
    (∃ q, (sync priorGraph [homerEdge, margeEdge] myOrg
        [kyleOwner, bartOwner, lisaOwner] myOrg 200 7
        ⟨true, true, true⟩).graph.users "https://example.com/mbsimpson" = some q ∧
      q.firstseen = margeProps.firstseen) ∧
    (∃ q, (sync priorGraph [homerEdge, margeEdge] myOrg
        [kyleOwner, bartOwner, lisaOwner] myOrg 200 7
        ⟨true, true, true⟩).graph.users homerEdge.node.url = some q ∧
      q.lastupdated = 200) ∧
    (∃ q, (sync priorGraph [homerEdge, margeEdge] myOrg
        [kyleOwner, bartOwner, lisaOwner] myOrg 200 7
        ⟨true, true, true⟩).graph.users kyleOwner.node.url = some q ∧
      q.lastupdated = 200) ∧
    (∃ q, (sync priorGraph [homerEdge, margeEdge] myOrg
        [kyleOwner, bartOwner, lisaOwner] myOrg 200 7
        ⟨true, true, true⟩).graph.orgs myOrg.url = some q ∧
      q.firstseen = 5 ∧ q.lastupdated = 200) ∧
    (∃ q, (sync priorGraph [homerEdge, margeEdge] myOrg
        [kyleOwner, bartOwner, lisaOwner] myOrg 200 7
        ⟨true, true, true⟩).graph.unaffiliated kyleOwner.node.url myOrg.url =
        some q ∧ q.lastupdated = 200) :=
  ⟨⟨rfl, rfl, by decide, by decide, rfl⟩,
   (sync_firstseen_lastupdated priorGraph [homerEdge, margeEdge] myOrg
      [kyleOwner, bartOwner, lisaOwner] myOrg 200 7 rfl rfl).1
     "https://example.com/mbsimpson" margeProps rfl,
   (sync_firstseen_lastupdated priorGraph [homerEdge, margeEdge] myOrg
      [kyleOwner, bartOwner, lisaOwner] myOrg 200 7 rfl rfl).2.2.1
     homerEdge (by decide),
   (sync_firstseen_lastupdated priorGraph [homerEdge, margeEdge] myOrg
      [kyleOwner, bartOwner, lisaOwner] myOrg 200 7 rfl rfl).2.2.2.1
     kyleOwner (by decide) rfl,
   (sync_firstseen_lastupdated priorGraph [homerEdge, margeEdge] myOrg
      [kyleOwner, bartOwner, lisaOwner] myOrg 200 7 rfl rfl).2.2.2.2.1
     { firstseen := 5, username := "my_org", lastupdated := 100 } rfl,
   (sync_firstseen_lastupdated priorGraph [homerEdge, margeEdge] myOrg
      [kyleOwner, bartOwner, lisaOwner] myOrg 200 7 rfl rfl).2.2.2.2.2.2.2.2.2.2.2
     kyleOwner (by decide) rfl⟩

/-- C8: the sync sequence is fetch users, fetch owners, validate, reconcile,
phase 1, phase 2, cleanup, record metadata; a fatal error at validation or
in either upsert phase aborts all remaining steps, and completion metadata
(keyed by the validated tenant id and the UpdateTag) is recorded only if
every prior step succeeded. -/
theorem sync_sequence_abort (g : GraphState) (M : List MemberEdge) (uo : OrgData)
    (O : List OwnerEdge) (oo : OrgData) (tag : Int) (now : Nat) :
    (uo.url = oo.url → uo.login = oo.login →
      (sync g M uo O oo tag now ⟨true, true, true⟩).steps =
        [.fetchUsers, .fetchOwners, .validateOrgs, .reconcileUsers,
         .writeAffiliated, .writeUnaffiliated, .cleanupJob, .recordMetadata] ∧
      (sync g M uo O oo tag now ⟨true, true, true⟩).error = none ∧
      (sync g M uo O oo tag now ⟨true, true, true⟩).metadata =
        some { groupType := "GitHubOrganization", groupId := uo.url
               syncedType := "GitHubOrganization", updateTag := tag }) ∧
    ((uo.url ≠ oo.url ∨ uo.login ≠ oo.login) → ∀ beh : SessionBehavior,
      (sync g M uo O oo tag now beh).steps = [.fetchUsers, .fetchOwners] ∧
      (sync g M uo O oo tag now beh).graph = g ∧
      (sync g M uo O oo tag now beh).metadata = none) ∧
    (uo.url = oo.url → uo.login = oo.login → ∀ p2 c : Bool,
      (sync g M uo O oo tag now ⟨false, p2, c⟩).steps =
        [.fetchUsers, .fetchOwners, .validateOrgs, .reconcileUsers] ∧
      (sync g M uo O oo tag now ⟨false, p2, c⟩).graph = g ∧
      (sync g M uo O oo tag now ⟨false, p2, c⟩).metadata = none) ∧
    (uo.url = oo.url → uo.login = oo.login → ∀ c : Bool,
      (sync g M uo O oo tag now ⟨true, false, c⟩).steps =
        [.fetchUsers, .fetchOwners, .validateOrgs, .reconcileUsers,
         .writeAffiliated] ∧
      (sync g M uo O oo tag now ⟨true, false, c⟩).metadata = none) ∧
    (uo.url = oo.url → uo.login = oo.login →
      (sync g M uo O oo tag now ⟨true, true, false⟩).steps =
        [.fetchUsers, .fetchOwners, .validateOrgs, .reconcileUsers,
         .writeAffiliated, .writeUnaffiliated] ∧
      (sync g M uo O oo tag now ⟨true, true, false⟩).metadata = none) ∧
    (∀ beh : SessionBehavior, (sync g M uo O oo tag now beh).metadata ≠ none →
      uo.url = oo.url ∧ uo.login = oo.login ∧ beh.phase1Ok = true ∧
      beh.phase2Ok = true ∧ beh.cleanupOk = true ∧
      (sync g M uo O oo tag now beh).error = none ∧
      (sync g M uo O oo tag now beh).metadata =
        some { groupType := "GitHubOrganization", groupId := uo.url
               syncedType := "GitHubOrganization", updateTag := tag }) := by
  refine ⟨?_, ?_, ?_, ?_, ?_, ?_⟩
  · intro h1 h2
    refine ⟨?_, ?_, ?_⟩ <;> simp [sync, markUsersAsEnterpriseOwners, h1, h2]
  · intro h beh
    rcases h with h | h
    · refine ⟨?_, ?_, ?_⟩ <;> simp [sync, markUsersAsEnterpriseOwners, h]
    · by_cases h1 : uo.url = oo.url
      · refine ⟨?_, ?_, ?_⟩ <;> simp [sync, markUsersAsEnterpriseOwners, h1, h]
      · refine ⟨?_, ?_, ?_⟩ <;> simp [sync, markUsersAsEnterpriseOwners, h1]
  · intro h1 h2 p2 c
    refine ⟨?_, ?_, ?_⟩ <;> simp [sync, markUsersAsEnterpriseOwners, h1, h2]
  · intro h1 h2 c
    refine ⟨?_, ?_⟩ <;> simp [sync, markUsersAsEnterpriseOwners, h1, h2]
  · intro h1 h2
    refine ⟨?_, ?_⟩ <;> simp [sync, markUsersAsEnterpriseOwners, h1, h2]
  · intro beh hmd
    by_cases h1 : uo.url = oo.url
    · by_cases h2 : uo.login = oo.login
      · rcases beh with ⟨p1, p2, c⟩
        cases p1
        · exact absurd (by simp [sync, markUsersAsEnterpriseOwners, h1, h2]) hmd
        · cases p2
          · exact absurd (by simp [sync, markUsersAsEnterpriseOwners, h1, h2]) hmd
          · cases c
            · exact absurd (by simp [sync, markUsersAsEnterpriseOwners, h1, h2]) hmd
            · refine ⟨h1, h2, rfl, rfl, rfl, ?_, ?_⟩ <;>
                simp [sync, markUsersAsEnterpriseOwners, h1, h2]
      · exact absurd (by simp [sync, markUsersAsEnterpriseOwners, h1, h2]) hmd
    · exact absurd (by simp [sync, markUsersAsEnterpriseOwners, h1]) hmd

/-- Witness for C8: a matching run records the completion metadata after all
eight steps; a mismatched run stops after the fetches with nothing written
and no metadata. -/
theorem sync_sequence_abort_witness :
    ((sync GraphState.empty [homerEdge] myOrg [kyleOwner] myOrg 100 5
        ⟨true, true, true⟩).steps =
      [.fetchUsers, .fetchOwners, .validateOrgs, .reconcileUsers,
       .writeAffiliated, .writeUnaffiliated, .cleanupJob, .recordMetadata] ∧
     (sync GraphState.empty [homerEdge] myOrg [kyleOwner] myOrg 100 5
        ⟨true, true, true⟩).error = none ∧
     (sync GraphState.empty [homerEdge] myOrg [kyleOwner] myOrg 100 5
        ⟨true, true, true⟩).metadata =
       some { groupType := "GitHubOrganization", groupId := myOrg.url
              syncedType := "GitHubOrganization", updateTag := 100 }) ∧
    ((sync GraphState.empty [homerEdge] myOrg [kyleOwner] otherOrg 100 5
        ⟨true, true, true⟩).steps = [.fetchUsers, .fetchOwners] ∧
     (sync GraphState.empty [homerEdge] myOrg [kyleOwner] otherOrg 100 5
        ⟨true, true, true⟩).graph = GraphState.empty ∧
     (sync GraphState.empty [homerEdge] myOrg [kyleOwner] otherOrg 100 5
        ⟨true, true, true⟩).metadata = none) :=
  ⟨(sync_sequence_abort GraphState.empty [homerEdge] myOrg [kyleOwner] myOrg
      100 5).1 rfl rfl,
   (sync_sequence_abort GraphState.empty [homerEdge] myOrg [kyleOwner] otherOrg
      100 5).2.1 (Or.inl (by decide)) ⟨true, true, true⟩⟩

/-- A user-node record with its derived enterprise-owner flag cleared; two
nodes are the same up to the flag iff their eraseFlag images are equal. -/
def eraseFlag (p : UserProps) : UserProps :=
  { p with is_enterprise_owner := false }

/-- Two graphs that agree everywhere except possibly on the
is_enterprise_owner flag of user nodes. -/
def GEquiv (g1 g2 : GraphState) : Prop :=
  g1.orgs = g2.orgs ∧ g1.memberOf = g2.memberOf ∧
  g1.unaffiliated = g2.unaffiliated ∧
  ∀ uid, Option.map eraseFlag (g1.users uid) = Option.map eraseFlag (g2.users uid)

/-- GEquiv is reflexive. -/
theorem GEquiv.rfl (g : GraphState) : GEquiv g g :=
  ⟨Eq.refl _, Eq.refl _, Eq.refl _, fun _ => Eq.refl _⟩

/-- Flag-agreeing user maps agree on existence, firstseen, lastupdated, role
and has_2fa_enabled at every id. -/
theorem usersCases {g1 g2 : GraphState}
    (h : ∀ uid, Option.map eraseFlag (g1.users uid) = Option.map eraseFlag (g2.users uid))
    (uid : String) :
    (g1.users uid = none ∧ g2.users uid = none) ∨
    (∃ p1 p2, g1.users uid = some p1 ∧ g2.users uid = some p2 ∧
      p1.firstseen = p2.firstseen ∧ p1.role = p2.role ∧
      p1.has_2fa_enabled = p2.has_2fa_enabled) := by
  have h2 := h uid
  cases hg1 : g1.users uid with
  | none =>
    cases hg2 : g2.users uid with
    | none => exact Or.inl ⟨rfl, rfl⟩
    | some p2 =>
      rw [hg1, hg2] at h2
      simp at h2
  | some p1 =>
    cases hg2 : g2.users uid with
    | none =>
      rw [hg1, hg2] at h2
      simp at h2
    | some p2 =>
      rw [hg1, hg2] at h2
      simp only [Option.map_some'] at h2
      rw [Option.some_inj] at h2
      refine Or.inr ⟨p1, p2, rfl, rfl, ?_, ?_, ?_⟩
      · have h3 := congrArg UserProps.firstseen h2
        exact h3
      · have h3 := congrArg UserProps.role h2
        exact h3
      · have h3 := congrArg UserProps.has_2fa_enabled h2
        exact h3

/-- The org MERGE respects flag-equivalence of graphs. -/
theorem mergeOrg_gequiv {g1 g2 : GraphState} (h : GEquiv g1 g2)
    (ou ol : String) (now : Nat) (tag : Int) :
    GEquiv (mergeOrg g1 ou ol now tag) (mergeOrg g2 ou ol now tag) := by
  obtain ⟨ho, hm, hun, husers⟩ := h
  exact ⟨by simp [mergeOrg, ho], hm, hun, husers⟩

/-- The MEMBER_OF MERGE respects flag-equivalence of graphs. -/
theorem mergeMemberOfRel_gequiv {g1 g2 : GraphState} (h : GEquiv g1 g2)
    (a ou : String) (now : Nat) (tag : Int) :
    GEquiv (mergeMemberOfRel g1 a ou now tag) (mergeMemberOfRel g2 a ou now tag) := by
  obtain ⟨ho, hm, hun, husers⟩ := h
  exact ⟨ho, by simp [mergeMemberOfRel, hm], hun, husers⟩

/-- The UNAFFILIATED MERGE respects flag-equivalence of graphs. -/
theorem mergeUnaffiliatedRel_gequiv {g1 g2 : GraphState} (h : GEquiv g1 g2)
    (a ou : String) (now : Nat) (tag : Int) :
    GEquiv (mergeUnaffiliatedRel g1 a ou now tag)
      (mergeUnaffiliatedRel g2 a ou now tag) := by
  obtain ⟨ho, hm, hun, husers⟩ := h
  exact ⟨ho, hm, by simp [mergeUnaffiliatedRel, hun], husers⟩

/-- Two decorated members equal in every field except possibly the derived
isEnterpriseOwner flag. -/
def DMEquiv (u1 u2 : DecoratedMember) : Prop :=
  u1.hasTwoFactorEnabled = u2.hasTwoFactorEnabled ∧ u1.role = u2.role ∧
  u1.node.base = u2.node.base

/-- The phase-1 user MERGE maps flag-equivalent graphs and flag-equivalent
records to flag-equivalent graphs. -/
theorem upsertMemberUser_gequiv {g1 g2 : GraphState} (h : GEquiv g1 g2)
    {u1 u2 : DecoratedMember} (he : DMEquiv u1 u2) (now : Nat) (tag : Int) :
    GEquiv (upsertMemberUser g1 u1 now tag) (upsertMemberUser g2 u2 now tag) := by
  obtain ⟨ho, hm, hun, husers⟩ := h
  obtain ⟨h2fa, hrole, hbase⟩ := he
  have hud : u2.node.base.url = u1.node.base.url := by rw [hbase]
  refine ⟨ho, hm, hun, ?_⟩
  intro uid
  by_cases hk : uid = u1.node.base.url
  · subst hk
    have e1 := upsertMemberUser_users_self g1 u1 now tag
    have e2 := upsertMemberUser_users_self g2 u2 now tag
    rw [hud] at e2
    rw [e1, e2]
    rcases usersCases husers u1.node.base.url with ⟨hn1, hn2⟩ |
      ⟨p1, p2, hp1, hp2, hfs, hr, h2f⟩
    · simp [eraseFlag, hn1, hn2, ← hbase, h2fa, hrole]
    · simp [eraseFlag, hp1, hp2, hfs, ← hbase, h2fa, hrole]
  · have hk2 : uid ≠ u2.node.base.url := by
      rw [hud]
      exact hk
    have f1 : (upsertMemberUser g1 u1 now tag).users uid = g1.users uid := by
      simp [upsertMemberUser, hk]
    have f2 : (upsertMemberUser g2 u2 now tag).users uid = g2.users uid := by
      simp [upsertMemberUser, hk2]
    rw [f1, f2]
    exact husers uid

/-- The phase-2 user MERGE maps flag-equivalent graphs to flag-equivalent
graphs (it forces the flag to TRUE on both sides). -/
theorem upsertUnaffiliatedUser_gequiv {g1 g2 : GraphState} (h : GEquiv g1 g2)
    (o : OwnerEdge) (now : Nat) (tag : Int) :
    GEquiv (upsertUnaffiliatedUser g1 o now tag)
      (upsertUnaffiliatedUser g2 o now tag) := by
  obtain ⟨ho, hm, hun, husers⟩ := h
  refine ⟨ho, hm, hun, ?_⟩
  intro uid
  by_cases hk : uid = o.node.url
  · subst hk
    have e1 := upsertUnaffiliatedUser_users_self g1 o now tag
    have e2 := upsertUnaffiliatedUser_users_self g2 o now tag
    rw [e1, e2]
    rcases usersCases husers o.node.url with ⟨hn1, hn2⟩ |
      ⟨p1, p2, hp1, hp2, hfs, hr, h2f⟩
    · simp [eraseFlag, hn1, hn2]
    · simp [eraseFlag, hp1, hp2, hfs, hr, h2f]
  · have f1 : (upsertUnaffiliatedUser g1 o now tag).users uid = g1.users uid := by
      simp [upsertUnaffiliatedUser, hk]
    have f2 : (upsertUnaffiliatedUser g2 o now tag).users uid = g2.users uid := by
      simp [upsertUnaffiliatedUser, hk]
    rw [f1, f2]
    exact husers uid

/-- One phase-1 step respects flag-equivalence. -/
theorem memberStep_gequiv {g1 g2 : GraphState} (h : GEquiv g1 g2)
    {u1 u2 : DecoratedMember} (he : DMEquiv u1 u2)
    (orgUrl : String) (now : Nat) (tag : Int) :
    GEquiv (memberStep orgUrl now tag g1 u1) (memberStep orgUrl now tag g2 u2) := by
  have hud : u2.node.base.url = u1.node.base.url := by rw [he.2.2]
  unfold memberStep
  rw [hud]
  exact mergeMemberOfRel_gequiv (upsertMemberUser_gequiv h he now tag) _ _ now tag

/-- One phase-2 step respects flag-equivalence. -/
theorem unaffStep_gequiv {g1 g2 : GraphState} (h : GEquiv g1 g2) (o : OwnerEdge)
    (orgUrl : String) (now : Nat) (tag : Int) :
    GEquiv (unaffStep orgUrl now tag g1 o) (unaffStep orgUrl now tag g2 o) := by
  unfold unaffStep
  exact mergeUnaffiliatedRel_gequiv (upsertUnaffiliatedUser_gequiv h o now tag)
    _ _ now tag

/-- The phase-1 fold over pointwise flag-equivalent batches respects
flag-equivalence. -/
theorem memberFold_gequiv (orgUrl : String) (now : Nat) (tag : Int)
    {L1 L2 : List DecoratedMember} (hf : List.Forall₂ DMEquiv L1 L2) :
    ∀ {g1 g2 : GraphState}, GEquiv g1 g2 →
      GEquiv (L1.foldl (memberStep orgUrl now tag) g1)
        (L2.foldl (memberStep orgUrl now tag) g2) := by
  induction hf with
  | nil =>
    intro g1 g2 h
    exact h
  | cons hx hrest ih =>
    intro g1 g2 h
    rw [List.foldl_cons, List.foldl_cons]
    exact ih (memberStep_gequiv h hx orgUrl now tag)

/-- The phase-2 fold over the same batch respects flag-equivalence. -/
theorem unaffFold_gequiv (orgUrl : String) (now : Nat) (tag : Int)
    (data : List OwnerEdge) :
    ∀ {g1 g2 : GraphState}, GEquiv g1 g2 →
      GEquiv (data.foldl (unaffStep orgUrl now tag) g1)
        (data.foldl (unaffStep orgUrl now tag) g2) := by
  induction data with
  | nil =>
    intro g1 g2 h
    exact h
  | cons o rest ih =>
    intro g1 g2 h
    rw [List.foldl_cons, List.foldl_cons]
    exact ih (unaffStep_gequiv h o orgUrl now tag)

/-- Phase 1 over pointwise flag-equivalent batches respects
flag-equivalence. -/
theorem loadOrg_gequiv {g1 g2 : GraphState} (h : GEquiv g1 g2)
    {L1 L2 : List DecoratedMember} (hf : List.Forall₂ DMEquiv L1 L2)
    (orgData : OrgData) (now : Nat) (tag : Int) :
    GEquiv (loadOrganizationUsers g1 L1 orgData now tag)
      (loadOrganizationUsers g2 L2 orgData now tag) := by
  unfold loadOrganizationUsers
  exact memberFold_gequiv orgData.url now tag hf (mergeOrg_gequiv h _ _ _ _)

/-- Phase 2 over the same batch respects flag-equivalence. -/
theorem loadUnaff_gequiv {g1 g2 : GraphState} (h : GEquiv g1 g2)
    (data : List OwnerEdge) (orgData : OrgData) (now : Nat) (tag : Int) :
    GEquiv (loadUnaffiliatedOwners g1 data orgData now tag)
      (loadUnaffiliatedOwners g2 data orgData now tag) := by
  unfold loadUnaffiliatedOwners
  exact unaffFold_gequiv orgData.url now tag data (mergeOrg_gequiv h _ _ _ _)

/-- Mapping two pointwise flag-equivalent decorations over the same member
list gives pointwise flag-equivalent batches. -/
theorem forall2_map_dmequiv (f1 f2 : MemberEdge → DecoratedMember)
    (h : ∀ m, DMEquiv (f1 m) (f2 m)) :
    ∀ M : List MemberEdge, List.Forall₂ DMEquiv (M.map f1) (M.map f2)
  | [] => List.Forall₂.nil
  | m :: rest => List.Forall₂.cons (h m) (forall2_map_dmequiv f1 f2 h rest)

/-- A property preserved by the fold step for every element of the list
holds of the result. -/
theorem foldlPreserveMem {α β : Type} {f : α → β → α} {P : α → Prop} :
    ∀ (l : List β), (∀ b ∈ l, ∀ a, P a → P (f a b)) → ∀ a, P a → P (l.foldl f a)
  | [], _, _, ha => ha
  | b :: l, h, a, ha =>
    foldlPreserveMem l (fun x hx a2 ha2 => h x (List.mem_cons_of_mem _ hx) a2 ha2)
      (f a b) (h b (List.mem_cons_self _ _) a ha)

/-- Phase 1 does not touch the user node of any id outside its batch. -/
theorem loadOrg_users_frame (g : GraphState) (data : List DecoratedMember)
    (orgData : OrgData) (now : Nat) (tag : Int) (uid : String)
    (hnot : uid ∉ data.map (fun u => u.node.base.url)) :
    (loadOrganizationUsers g data orgData now tag).users uid = g.users uid := by
  unfold loadOrganizationUsers
  refine foldlPreserveMem (f := memberStep orgData.url now tag)
    (P := fun acc => acc.users uid = g.users uid) data ?_ _ rfl
  intro b hb a ha
  show (memberStep orgData.url now tag a b).users uid = g.users uid
  have hk : uid ≠ b.node.base.url := by
    intro he
    exact hnot (he ▸ List.mem_map_of_mem _ hb)
  rw [memberStep_users_eq]
  rw [show (upsertMemberUser a b now tag).users uid = a.users uid from by
    simp [upsertMemberUser, hk]]
  exact ha

/-- Phase 2 does not touch the user node of any id outside its batch. -/
theorem loadUnaff_users_frame (g : GraphState) (data : List OwnerEdge)
    (orgData : OrgData) (now : Nat) (tag : Int) (uid : String)
    (hnot : uid ∉ data.map (fun x => x.node.url)) :
    (loadUnaffiliatedOwners g data orgData now tag).users uid = g.users uid := by
  unfold loadUnaffiliatedOwners
  refine foldlPreserveMem (f := unaffStep orgData.url now tag)
    (P := fun acc => acc.users uid = g.users uid) data ?_ _ rfl
  intro b hb a ha
  show (unaffStep orgData.url now tag a b).users uid = g.users uid
  have hk : uid ≠ b.node.url := by
    intro he
    exact hnot (he ▸ List.mem_map_of_mem _ hb)
  rw [unaffStep_users_eq]
  rw [show (upsertUnaffiliatedUser a b now tag).users uid = a.users uid from by
    simp [upsertUnaffiliatedUser, hk]]
  exact ha

/-- Removing an affiliated owner edge from the owner result set leaves the
unaffiliated partition unchanged. -/
theorem partition_unaff_erase (O1 O2 : List OwnerEdge) (o : OwnerEdge)
    (hrole : o.organizationRole ≠ "UNAFFILIATED") :
    (partitionOwnerEdges (O1 ++ o :: O2)).2 = (partitionOwnerEdges (O1 ++ O2)).2 := by
  rw [partitionOwnerEdges_eq_filter, partitionOwnerEdges_eq_filter]
  simp [List.filter_append, List.filter_cons, hrole]

/-- C10: an owner edge whose organizationRole is anything other than
"UNAFFILIATED" is classified affiliated, is not in the phase-2 batch (the
phase-1 batch consists solely of the decorated member edges), is never
written to the graph as a user record in its own right, and its only effect
on a run is through the affiliated-url set, i.e. at most the
is_enterprise_owner flags of user nodes: removing it changes nothing else
in the outcome. -/
theorem affiliated_owner_only_flags (g : GraphState) (M : List MemberEdge)
    (uo oo : OrgData) (O1 O2 : List OwnerEdge) (o : OwnerEdge) (tag : Int)
    (now : Nat) (hrole : o.organizationRole ≠ "UNAFFILIATED")
    (hu : uo.url = oo.url) (hl : uo.login = oo.login) :
    o ∈ (partitionOwnerEdges (O1 ++ o :: O2)).1 ∧
    o ∉ (partitionOwnerEdges (O1 ++ o :: O2)).2 ∧
    (partitionOwnerEdges (O1 ++ o :: O2)).2 = (partitionOwnerEdges (O1 ++ O2)).2 ∧
    (∃ d, markUsersAsEnterpriseOwners M uo (partitionOwnerEdges (O1 ++ o :: O2)).1 oo =
        .ok d ∧
      d.map (fun x => x.node.base) = M.map (fun m => m.node)) ∧
    (o.node.url ∉ M.map (fun m => m.node.url) →
      o.node.url ∉ ((partitionOwnerEdges (O1 ++ o :: O2)).2).map (fun x => x.node.url) →
      (sync g M uo (O1 ++ o :: O2) oo tag now ⟨true, true, true⟩).graph.users
          o.node.url = g.users o.node.url) ∧
    GEquiv (sync g M uo (O1 ++ o :: O2) oo tag now ⟨true, true, true⟩).graph
      (sync g M uo (O1 ++ O2) oo tag now ⟨true, true, true⟩).graph ∧
    (sync g M uo (O1 ++ o :: O2) oo tag now ⟨true, true, true⟩).steps =
      (sync g M uo (O1 ++ O2) oo tag now ⟨true, true, true⟩).steps ∧
    (sync g M uo (O1 ++ o :: O2) oo tag now ⟨true, true, true⟩).error =
      (sync g M uo (O1 ++ O2) oo tag now ⟨true, true, true⟩).error ∧
    (sync g M uo (O1 ++ o :: O2) oo tag now ⟨true, true, true⟩).metadata =
      (sync g M uo (O1 ++ O2) oo tag now ⟨true, true, true⟩).metadata := by
  refine ⟨?_, ?_, partition_unaff_erase O1 O2 o hrole, ?_, ?_, ?_, ?_, ?_, ?_⟩
  · rw [partitionOwnerEdges_eq_filter]
    simp [List.mem_filter, hrole]
  · rw [partitionOwnerEdges_eq_filter]
    simp [List.mem_filter, hrole]
  · refine ⟨M.map (fun u =>
      { hasTwoFactorEnabled := u.hasTwoFactorEnabled
        node := { base := u.node
                  isEnterpriseOwner :=
                    (ownerUrlList (partitionOwnerEdges (O1 ++ o :: O2)).1).contains
                      u.node.url }
        role := u.role }), ?_, ?_⟩
    · simp [markUsersAsEnterpriseOwners, hu, hl]
    · rw [List.map_map]
      rfl
  · intro hm hun2
    rw [sync_success_graph g M uo (O1 ++ o :: O2) oo tag now hu hl]
    rw [loadUnaff_users_frame _ _ _ _ _ _ hun2]
    apply loadOrg_users_frame
    rw [List.map_map]
    exact hm
  · rw [sync_success_graph g M uo (O1 ++ o :: O2) oo tag now hu hl,
        sync_success_graph g M uo (O1 ++ O2) oo tag now hu hl,
        partition_unaff_erase O1 O2 o hrole]
    exact loadUnaff_gequiv
      (loadOrg_gequiv (GEquiv.rfl g)
        (forall2_map_dmequiv
          (fun u =>
            { hasTwoFactorEnabled := u.hasTwoFactorEnabled
              node := { base := u.node
                        isEnterpriseOwner :=
                          (ownerUrlList
                            (partitionOwnerEdges (O1 ++ o :: O2)).1).contains
                            u.node.url }
              role := u.role })
          (fun u =>
            { hasTwoFactorEnabled := u.hasTwoFactorEnabled
              node := { base := u.node
                        isEnterpriseOwner :=
                          (ownerUrlList
                            (partitionOwnerEdges (O1 ++ O2)).1).contains
                            u.node.url }
              role := u.role })
          (fun m => ⟨rfl, rfl, rfl⟩) M) uo now tag)
      _ oo now tag
  · simp [sync, markUsersAsEnterpriseOwners, hu, hl]
  · simp [sync, markUsersAsEnterpriseOwners, hu, hl]
  · simp [sync, markUsersAsEnterpriseOwners, hu, hl]

/-- Witness for C10: Lisa (organizationRole OWNER) lands in the affiliated
partition, is absent from the unaffiliated batch, no user node is written
for her url, and dropping her edge changes at most enterprise-owner flags. -/
theorem affiliated_owner_only_flags_witness :
    (lisaOwner.organizationRole ≠ "UNAFFILIATED" ∧
     lisaOwner.node.url ∉ [homerEdge, margeEdge].map (fun m => m.node.url) ∧
     lisaOwner.node.url ∉
       ((partitionOwnerEdges ([kyleOwner, bartOwner] ++ lisaOwner :: [])).2).map
         (fun x => x.node.url)) ∧
    lisaOwner ∈ (partitionOwnerEdges ([kyleOwner, bartOwner] ++ lisaOwner :: [])).1 ∧
    lisaOwner ∉ (partitionOwnerEdges ([kyleOwner, bartOwner] ++ lisaOwner :: [])).2 ∧
    (sync GraphState.empty [homerEdge, margeEdge] myOrg
        ([kyleOwner, bartOwner] ++ lisaOwner :: []) myOrg 100 5
        ⟨true, true, true⟩).graph.users lisaOwner.node.url =
      GraphState.empty.users lisaOwner.node.url ∧
    GEquiv
      (sync GraphState.empty [homerEdge, margeEdge] myOrg
        ([kyleOwner, bartOwner] ++ lisaOwner :: []) myOrg 100 5
        ⟨true, true, true⟩).graph
      (sync GraphState.empty [homerEdge, margeEdge] myOrg
        ([kyleOwner, bartOwner] ++ []) myOrg 100 5 ⟨true, true, true⟩).graph :=
  ⟨⟨by decide, by decide, by decide⟩,
   (affiliated_owner_only_flags GraphState.empty [homerEdge, margeEdge] myOrg myOrg
      [kyleOwner, bartOwner] [] lisaOwner 100 5 (by decide) rfl rfl).1,
   (affiliated_owner_only_flags GraphState.empty [homerEdge, margeEdge] myOrg myOrg
      [kyleOwner, bartOwner] [] lisaOwner 100 5 (by decide) rfl rfl).2.1,
   (affiliated_owner_only_flags GraphState.empty [homerEdge, margeEdge] myOrg myOrg
      [kyleOwner, bartOwner] [] lisaOwner 100 5 (by decide) rfl rfl).2.2.2.2.1
     (by decide) (by decide),
   (affiliated_owner_only_flags GraphState.empty [homerEdge, margeEdge] myOrg myOrg
      [kyleOwner, bartOwner] [] lisaOwner 100 5 (by decide) rfl rfl).2.2.2.2.2.1⟩
